import Mathlib

set_option maxRecDepth 8000

attribute [local semireducible] Rat.mul Rat.add Rat.inv Rat.sub

/-!
Shallow embedding of the sprite anomaly-detection and auto-fix pipeline
(`autofix.js`): pixel analysis, median/quartile statistics, the four
detection methods, replacement resolution, bottom-center stabilization,
and final verification.  JavaScript numbers are modelled as rationals,
decoded image buffers as `Frame` values, and the image-codec collaborator
(`sharp` resize, `pixelmatch`) as an abstract `Codec` parameter.
-/

/-- RGBA sample of one pixel, channels in 0..255, as laid out in the flat
raw buffer produced by `sharp(buf).ensureAlpha().raw()`. -/
structure Pix where
  r : Nat
  g : Nat
  b : Nat
  a : Nat
deriving DecidableEq

/-- A decoded frame: dimensions plus a pixel lookup modelling the flat RGBA
buffer together with the `info` metadata returned by the decoder. -/
@[ext]
structure Frame where
  width : Nat
  height : Nat
  px : Nat → Nat → Pix

/-- Default frame used for out-of-range list reads (never hit on the
in-range accesses performed by the code). -/
def dFrame : Frame := ⟨0, 0, fun _ _ => ⟨0, 0, 0, 0⟩⟩

instance : Inhabited Frame := ⟨dFrame⟩

/-- Row-major traversal order of a `width × height` buffer (y outer, x inner),
matching the linear `for (let i = 0; i < data.length; i += 4)` scans. -/
def coordsYX (w h : Nat) : List (Nat × Nat) :=
  (List.range h).flatMap (fun y => (List.range w).map (fun x => (x, y)))

/-- Ascending sort used throughout: `[...arr].sort((a, b) => a - b)`. -/
def sortQ (l : List ℚ) : List ℚ :=
  List.insertionSort (fun a b => a ≤ b) l

/-- `getMedian`: `sorted[Math.floor(sorted.length / 2)]` (nearest rank, no
interpolation). -/
def getMedianQ (l : List ℚ) : ℚ :=
  let sorted := sortQ l
  sorted.getD (sorted.length / 2) 0

/-- First quartile by nearest-rank indexing: `sorted[Math.floor(len * 0.25)]`.
The float product `len * 0.25` is exact, so the index is `len / 4`. -/
def q1Of (l : List ℚ) : ℚ :=
  let sorted := sortQ l
  sorted.getD (sorted.length / 4) 0

/-- Third quartile by nearest-rank indexing: `sorted[Math.floor(len * 0.75)]`,
whose index is `3 * len / 4` in exact arithmetic. -/
def q3Of (l : List ℚ) : ℚ :=
  let sorted := sortQ l
  sorted.getD (3 * sorted.length / 4) 0

/-- The color buckets counted by `analyzePixels`. -/
structure ColorCounts where
  darkGreen : Nat
  brown : Nat
  darkPixels : Nat
  other : Nat
deriving DecidableEq

/-- The alpha-category ratios computed by `analyzePixels`. -/
structure AlphaRatios where
  opaqueRatio : ℚ
  semiTransRatio : ℚ
  transparentRatio : ℚ
deriving DecidableEq

/-- One entry of `frameAnalysis`: the per-frame statistics kept by
`detectBadFrames` (index, decoded dimensions, bucket counts, alpha ratios). -/
structure Analysis where
  index : Nat
  width : Nat
  height : Nat
  colors : ColorCounts
  alpha : AlphaRatios
deriving DecidableEq

/-- Running tally for the single pass of `analyzePixels` over the buffer. -/
structure PixTally where
  darkGreen : Nat
  brown : Nat
  darkPixels : Nat
  other : Nat
  opaqueCount : Nat
  semiTransCount : Nat
  transparentCount : Nat
deriving DecidableEq

/-- One loop iteration of `analyzePixels`: alpha category, then (for pixels
with alpha at least 128) the first-match color bucket. -/
def classifyStep (f : Frame) (t : PixTally) (c : Nat × Nat) : PixTally :=
  let p := f.px c.1 c.2
  let t1 :=
    if 250 < p.a then { t with opaqueCount := t.opaqueCount + 1 }
    else if 5 < p.a then { t with semiTransCount := t.semiTransCount + 1 }
    else { t with transparentCount := t.transparentCount + 1 }
  if p.a < 128 then t1
  else if p.r < p.g ∧ p.b < p.g ∧ 80 < p.g ∧ p.g < 180 ∧ p.r < 130 ∧ p.b < 110 then
    { t1 with darkGreen := t1.darkGreen + 1 }
  else if 70 < p.r ∧ p.r < 190 ∧ 50 < p.g ∧ p.g < 150 ∧ 30 < p.b ∧ p.b < 130 ∧
      Nat.dist p.r p.g < 60 then
    { t1 with brown := t1.brown + 1 }
  else if p.r < 90 ∧ p.g < 90 ∧ p.b < 90 then
    { t1 with darkPixels := t1.darkPixels + 1 }
  else
    { t1 with other := t1.other + 1 }

/-- `analyzePixels(data, width, height)`: color bucket counts and alpha
ratios (each alpha count divided by `width * height`). -/
def analyzePixels (f : Frame) : ColorCounts × AlphaRatios :=
  let t := (coordsYX f.width f.height).foldl (classifyStep f) ⟨0, 0, 0, 0, 0, 0, 0⟩
  let totalPixels : ℚ := ((f.width * f.height : Nat) : ℚ)
  (⟨t.darkGreen, t.brown, t.darkPixels, t.other⟩,
   ⟨(t.opaqueCount : ℚ) / totalPixels, (t.semiTransCount : ℚ) / totalPixels,
    (t.transparentCount : ℚ) / totalPixels⟩)

/-- The analysis record of the frame at one index. -/
def analysisAt (fs : List Frame) (i : Nat) : Analysis :=
  let f := fs.getD i dFrame
  let res := analyzePixels f
  ⟨i, f.width, f.height, res.1, res.2⟩

/-- The decoded-and-analyzed frame list built at the top of `detectBadFrames`. -/
def frameAnalyses (fs : List Frame) : List Analysis :=
  (List.range fs.length).map (analysisAt fs)

/-- The cross-frame medians computed by `calculateMedianStats`. -/
structure Stats where
  darkGreen : ℚ
  brown : ℚ
  darkPixels : ℚ
  opaqueRatio : ℚ
  semiTransRatio : ℚ
deriving DecidableEq

/-- `calculateMedianStats(frameAnalysis)`. -/
def calculateMedianStats (analyses : List Analysis) : Stats :=
  ⟨getMedianQ (analyses.map (fun f => (f.colors.darkGreen : ℚ))),
   getMedianQ (analyses.map (fun f => (f.colors.brown : ℚ))),
   getMedianQ (analyses.map (fun f => (f.colors.darkPixels : ℚ))),
   getMedianQ (analyses.map (fun f => f.alpha.opaqueRatio)),
   getMedianQ (analyses.map (fun f => f.alpha.semiTransRatio))⟩

/-- The three checked color channels of Method 1. -/
inductive Channel where
  | darkGreen
  | brown
  | darkPixels
deriving DecidableEq

/-- Bucket count of one frame for a channel. -/
def ColorCounts.channel (c : ColorCounts) : Channel → Nat
  | .darkGreen => c.darkGreen
  | .brown => c.brown
  | .darkPixels => c.darkPixels

/-- Cross-frame median for a channel. -/
def Stats.channelMedian (st : Stats) : Channel → ℚ
  | .darkGreen => st.darkGreen
  | .brown => st.brown
  | .darkPixels => st.darkPixels

/-- Anomaly severity. -/
inductive Severity where
  | moderate
  | severe
deriving DecidableEq

/-- The anomaly records pushed by the four detection methods, one constructor
per `type`, carrying the method-specific numeric fields. -/
inductive Anomaly where
  | color_loss (channel : Channel) (frameCount : Nat) (medianCount : ℚ) (ratio : ℚ)
      (severity : Severity)
  | green_washout (frameCount : Nat) (medianCount : ℚ) (ratio : ℚ) (severity : Severity)
  | transparency_hole (frameOpacity medianOpacity lower upper : ℚ) (severity : Severity)
  | extra_opacity (frameOpacity medianOpacity lower upper : ℚ) (severity : Severity)
  | halo_effect (frameSemiTrans q3SemiTrans increase : ℚ) (severity : Severity)
  | structural_damage (ssimToPrev ssimToNext threshold : ℚ) (severity : Severity)
  | pixel_outlier (avgDiff medianDiff threshold : ℚ) (severity : Severity)
deriving DecidableEq

/-- Severity of an anomaly record. -/
def Anomaly.severity : Anomaly → Severity
  | .color_loss _ _ _ _ s => s
  | .green_washout _ _ _ s => s
  | .transparency_hole _ _ _ _ s => s
  | .extra_opacity _ _ _ _ s => s
  | .halo_effect _ _ _ s => s
  | .structural_damage _ _ _ s => s
  | .pixel_outlier _ _ _ s => s

/-- The `type` tags, for stating results about which anomaly kinds appear. -/
inductive AnomalyKind where
  | color_loss
  | green_washout
  | transparency_hole
  | extra_opacity
  | halo_effect
  | structural_damage
  | pixel_outlier
deriving DecidableEq

/-- The `type` tag of an anomaly record. -/
def Anomaly.kind : Anomaly → AnomalyKind
  | .color_loss _ _ _ _ _ => .color_loss
  | .green_washout _ _ _ _ => .green_washout
  | .transparency_hole _ _ _ _ _ => .transparency_hole
  | .extra_opacity _ _ _ _ _ => .extra_opacity
  | .halo_effect _ _ _ _ => .halo_effect
  | .structural_damage _ _ _ _ => .structural_damage
  | .pixel_outlier _ _ _ _ => .pixel_outlier

/-- Test for a `color_loss` anomaly on a given channel (the
`a.channel === 'darkGreen'` lookup of Method 1). -/
def Anomaly.isColorLossOn (ch : Channel) : Anomaly → Bool
  | .color_loss c _ _ _ _ => c == ch
  | _ => false

/-- Test for a `structural_damage` anomaly (used by Method 4 to avoid
double-counting). -/
def Anomaly.isStructural : Anomaly → Bool
  | .structural_damage _ _ _ _ => true
  | _ => false

/-- The option record destructured at the top of `autoFix`. -/
structure Options where
  colorRatioThreshold : ℚ
  opacityIQRMultiplier : ℚ
  ssimThreshold : ℚ
  pixelDiffThreshold : ℚ
deriving DecidableEq

/-- The default thresholds: 0.35, 2.5, 0.55, 0.15. -/
def defaultOptions : Options := ⟨35/100, 25/10, 55/100, 15/100⟩

/-- Grayscale luminance `0.299 r + 0.587 g + 0.114 b`. -/
def luminance (p : Pix) : ℚ :=
  ((299 * p.r + 587 * p.g + 114 * p.b : Nat) : ℚ) / 1000

/-- Accumulator of `calculateSimplifiedSSIM`. -/
structure SSIMAcc where
  sum1 : ℚ
  sum2 : ℚ
  sumSq1 : ℚ
  sumSq2 : ℚ
  sumProd : ℚ
  count : Nat
deriving DecidableEq

/-- `calculateSimplifiedSSIM(data1, data2, width, height)`: luminance
mean/variance/covariance over pixels where either frame has alpha above 64,
combined by the SSIM formula with `c1 = 6.5025` and `c2 = 58.5225`. -/
def calculateSimplifiedSSIM (f1 f2 : Frame) (w h : Nat) : ℚ :=
  let acc := (coordsYX w h).foldl
    (fun (acc : SSIMAcc) c =>
      let p1 := f1.px c.1 c.2
      let p2 := f2.px c.1 c.2
      if 64 < p1.a ∨ 64 < p2.a then
        let l1 := luminance p1
        let l2 := luminance p2
        ⟨acc.sum1 + l1, acc.sum2 + l2, acc.sumSq1 + l1 * l1, acc.sumSq2 + l2 * l2,
         acc.sumProd + l1 * l2, acc.count + 1⟩
      else acc)
    (⟨0, 0, 0, 0, 0, 0⟩ : SSIMAcc)
  if acc.count = 0 then 1
  else
    let mean1 := acc.sum1 / (acc.count : ℚ)
    let mean2 := acc.sum2 / (acc.count : ℚ)
    let var1 := acc.sumSq1 / (acc.count : ℚ) - mean1 * mean1
    let var2 := acc.sumSq2 / (acc.count : ℚ) - mean2 * mean2
    let covar := acc.sumProd / (acc.count : ℚ) - mean1 * mean2
    let c1 : ℚ := 65025 / 10000
    let c2 : ℚ := 585225 / 10000
    ((2 * mean1 * mean2 + c1) * (2 * covar + c2)) /
      ((mean1 * mean1 + mean2 * mean2 + c1) * (var1 + var2 + c2))

/-- The image-codec collaborator: `sharp` resize with `fit: contain` over a
transparent background, and `pixelmatch` with its fixed tolerance. -/
structure Codec where
  resizeContain : Frame → Nat → Nat → Frame
  pixelDiff : Frame → Frame → Nat → Nat → Nat

/-- `Math.max(...frameAnalysis.map(f => f.width))`. -/
def maxFrameWidth (analyses : List Analysis) : Nat :=
  (analyses.map (fun f => f.width)).foldl max 0

/-- `Math.max(...frameAnalysis.map(f => f.height))`. -/
def maxFrameHeight (analyses : List Analysis) : Nat :=
  (analyses.map (fun f => f.height)).foldl max 0

/-- The `normalizedFrames` used by Methods 3 and 4: every frame resized with
`fit: contain` to the common maximum dimensions. -/
def normalizedFramesOf (codec : Codec) (fs : List Frame) : List Frame :=
  let analyses := frameAnalyses fs
  fs.map (fun buf => codec.resizeContain buf (maxFrameWidth analyses) (maxFrameHeight analyses))

/-- The `adjacentSSIM` scores: one per temporally adjacent pair. -/
def adjacentSSIMScores (codec : Codec) (fs : List Frame) : List ℚ :=
  let analyses := frameAnalyses fs
  let mw := maxFrameWidth analyses
  let mh := maxFrameHeight analyses
  let nf := normalizedFramesOf codec fs
  (List.range (fs.length - 1)).map (fun i =>
    calculateSimplifiedSSIM (nf.getD i dFrame) (nf.getD (i + 1) dFrame) mw mh)

/-- `ssimOutlierThreshold = Q1 - 3.0 * IQR` over a list of adjacent scores. -/
def ssimOutlierThresholdFrom (scores : List ℚ) : ℚ :=
  q1Of scores - 3 * (q3Of scores - q1Of scores)

/-- The strict SSIM outlier floor of Method 3 for a given run. -/
def ssimOutlierThresholdOf (codec : Codec) (fs : List Frame) : ℚ :=
  ssimOutlierThresholdFrom (adjacentSSIMScores codec fs)

/-- The `consecutiveDiffs` ratios of Method 4: `pixelmatch` count between
adjacent normalized frames divided by `maxWidth * maxHeight`. -/
def consecutiveDiffRatios (codec : Codec) (fs : List Frame) : List ℚ :=
  let analyses := frameAnalyses fs
  let mw := maxFrameWidth analyses
  let mh := maxFrameHeight analyses
  let nf := normalizedFramesOf codec fs
  (List.range (fs.length - 1)).map (fun i =>
    ((codec.pixelDiff (nf.getD i dFrame) (nf.getD (i + 1) dFrame) mw mh : Nat) : ℚ) /
      (((mw * mh : Nat) : ℚ)))

/-- The per-index anomaly map (`frameAnomalies`), in insertion order like a
JavaScript `Map`. -/
abbrev AMap := List (Nat × List Anomaly)

/-- `frameAnomalies.get(i) || []`. -/
def mapGet (m : AMap) (i : Nat) : List Anomaly :=
  match m.find? (fun e => e.1 == i) with
  | some e => e.2
  | none => []

/-- `frameAnomalies.set(i, v)`: update in place if the key exists (keeping
its position), else append, as a JavaScript `Map` does. -/
def mapSet (m : AMap) (i : Nat) (v : List Anomaly) : AMap :=
  if m.any (fun e => e.1 == i) then
    m.map (fun e => if e.1 == i then (i, v) else e)
  else m ++ [(i, v)]

/-- The common `anomalies = get(i) or []; anomalies.push(...); set(i, anomalies)`
pattern: append `adds` to index `i`'s list (a no-op when nothing is pushed). -/
def applyAdd (m : AMap) (i : Nat) (adds : List Anomaly) : AMap :=
  if adds.isEmpty then m else mapSet m i (mapGet m i ++ adds)

/-- One detection pass: a fold over job items (frames or interior indices),
each appending its anomalies to its own index's entry.  `F` may inspect the
current entry (Method 4 checks for `structural_damage`). -/
def runPass {α : Type} (idx : α → Nat) (F : α → List Anomaly → List Anomaly)
    (m0 : AMap) (jobs : List α) : AMap :=
  jobs.foldl (fun m j => applyAdd m (idx j) (F j (mapGet m (idx j)))) m0

/-- Method 1, one channel check: flag `color_loss` when the cross-frame median
exceeds the presence floor 50 and the frame's ratio is below the threshold. -/
def colorCheckFor (opts : Options) (st : Stats) (fa : Analysis) (ch : Channel) :
    List Anomaly :=
  let medianCount := st.channelMedian ch
  let frameCount := fa.colors.channel ch
  if 50 < medianCount then
    let ratio := (frameCount : ℚ) / medianCount
    if ratio < opts.colorRatioThreshold then
      [.color_loss ch frameCount medianCount ratio
        (if ratio < 2/10 then .severe else .moderate)]
    else []
  else []

/-- Method 1, the special green check: a `green_washout` record when the green
median exceeds 100, the ratio is below threshold, and no `color_loss` for
`darkGreen` was already pushed. -/
def greenWashoutFor (opts : Options) (st : Stats) (fa : Analysis)
    (existing : List Anomaly) : List Anomaly :=
  if 100 < st.darkGreen then
    let greenRatio := (fa.colors.darkGreen : ℚ) / st.darkGreen
    if greenRatio < opts.colorRatioThreshold then
      if existing.any (Anomaly.isColorLossOn .darkGreen) then []
      else
        [.green_washout fa.colors.darkGreen st.darkGreen greenRatio
          (if greenRatio < 2/10 then .severe else .moderate)]
    else []
  else []

/-- All Method 1 anomalies for one frame, in push order. -/
def method1AnomaliesFor (opts : Options) (st : Stats) (fa : Analysis) : List Anomaly :=
  let base := colorCheckFor opts st fa .darkGreen ++ colorCheckFor opts st fa .brown ++
    colorCheckFor opts st fa .darkPixels
  base ++ greenWashoutFor opts st fa base

/-- The IQR bounds of Method 2 over all frames' opaque ratios:
`(lower, upper, iqr)`. -/
def opacityBoundsOf (opts : Options) (analyses : List Analysis) : ℚ × ℚ × ℚ :=
  let opacityValues := analyses.map (fun f => f.alpha.opaqueRatio)
  let opacityQ1 := q1Of opacityValues
  let opacityQ3 := q3Of opacityValues
  let opacityIQR := opacityQ3 - opacityQ1
  (opacityQ1 - opts.opacityIQRMultiplier * opacityIQR,
   opacityQ3 + opts.opacityIQRMultiplier * opacityIQR, opacityIQR)

/-- Method 2, opacity outlier check for one frame: outside the IQR bounds is
flagged `transparency_hole` (when below the median) or `extra_opacity`;
severity is `severe` when the ratio is below `lower - IQR`. -/
def opacityAnomFor (opts : Options) (st : Stats) (analyses : List Analysis)
    (fa : Analysis) : List Anomaly :=
  let b := opacityBoundsOf opts analyses
  let lower := b.1
  let upper := b.2.1
  let iqr := b.2.2
  if fa.alpha.opaqueRatio < lower ∨ upper < fa.alpha.opaqueRatio then
    [if fa.alpha.opaqueRatio < st.opaqueRatio then
      .transparency_hole fa.alpha.opaqueRatio st.opaqueRatio lower upper
        (if fa.alpha.opaqueRatio < lower - iqr then .severe else .moderate)
     else
      .extra_opacity fa.alpha.opaqueRatio st.opaqueRatio lower upper
        (if fa.alpha.opaqueRatio < lower - iqr then .severe else .moderate)]
  else []

/-- Method 2, halo check for one frame: flag when the semi-transparent ratio
exceeds the cross-frame Q3 by more than 0.08 (severe above 0.15). -/
def haloAnomFor (analyses : List Analysis) (fa : Analysis) : List Anomaly :=
  let semiTransValues := analyses.map (fun f => f.alpha.semiTransRatio)
  let semiTransQ3 := q3Of semiTransValues
  let semiTransDiff := fa.alpha.semiTransRatio - semiTransQ3
  if 8/100 < semiTransDiff then
    [.halo_effect fa.alpha.semiTransRatio semiTransQ3 semiTransDiff
      (if 15/100 < semiTransDiff then .severe else .moderate)]
  else []

/-- All Method 2 anomalies for one frame, in push order. -/
def method2AddsFor (opts : Options) (st : Stats) (analyses : List Analysis)
    (fa : Analysis) : List Anomaly :=
  opacityAnomFor opts st analyses fa ++ haloAnomFor analyses fa

/-- Method 3 for one interior index: flag `structural_damage` only when both
adjacent scores are below the strict outlier floor and the minimum is below
the absolute `ssimThreshold` (severe below 0.4). -/
def method3AddsFor (opts : Options) (scores : List ℚ) (i : Nat) : List Anomaly :=
  let thr := ssimOutlierThresholdFrom scores
  let ssimToPrev := scores.getD (i - 1) 0
  let ssimToNext := scores.getD i 0
  if (ssimToPrev < thr ∧ ssimToNext < thr) ∧ min ssimToPrev ssimToNext < opts.ssimThreshold then
    [.structural_damage ssimToPrev ssimToNext thr
      (if min ssimToPrev ssimToNext < 4/10 then .severe else .moderate)]
  else []

/-- Method 4 for one interior index: flag `pixel_outlier` when the average of
the two adjacent diff ratios exceeds `max(2.5 * medianDiff, pixelDiffThreshold)`
and the frame was not already flagged `structural_damage`. -/
def method4AddsFor (opts : Options) (diffRatios : List ℚ) (cur : List Anomaly)
    (i : Nat) : List Anomaly :=
  let medianDiff := getMedianQ diffRatios
  let outlierThr := max (medianDiff * (25/10)) opts.pixelDiffThreshold
  let avgDiff := (diffRatios.getD (i - 1) 0 + diffRatios.getD i 0) / 2
  if outlierThr < avgDiff then
    if cur.any Anomaly.isStructural then []
    else
      [.pixel_outlier avgDiff medianDiff outlierThr
        (if medianDiff * 4 < avgDiff then .severe else .moderate)]
  else []

/-- The per-run reference statistics (`const stats = calculateMedianStats(...)`). -/
def statsOf (fs : List Frame) : Stats :=
  calculateMedianStats (frameAnalyses fs)

/-- `frameAnomalies` after Method 1 (color histogram). -/
def anomalyMapM1 (opts : Options) (fs : List Frame) : AMap :=
  runPass Analysis.index (fun fa _ => method1AnomaliesFor opts (statsOf fs) fa) []
    (frameAnalyses fs)

/-- `frameAnomalies` after Method 2 (alpha-channel IQR analysis). -/
def anomalyMapM2 (opts : Options) (fs : List Frame) : AMap :=
  runPass Analysis.index (fun fa _ => method2AddsFor opts (statsOf fs) (frameAnalyses fs) fa)
    (anomalyMapM1 opts fs) (frameAnalyses fs)

/-- `frameAnomalies` after Method 3 (structural similarity on interior frames). -/
def anomalyMapM3 (codec : Codec) (opts : Options) (fs : List Frame) : AMap :=
  runPass id (fun i _ => method3AddsFor opts (adjacentSSIMScores codec fs) i)
    (anomalyMapM2 opts fs) (List.range' 1 (fs.length - 2))

/-- `frameAnomalies` after Method 4 (pixel-difference outliers on interior frames). -/
def anomalyMapM4 (codec : Codec) (opts : Options) (fs : List Frame) : AMap :=
  runPass id (fun i cur => method4AddsFor opts (consecutiveDiffRatios codec fs) cur i)
    (anomalyMapM3 codec opts fs) (List.range' 1 (fs.length - 2))

/-- The merged `frameAnomalies` map after all four methods (empty when the
sequence has fewer than 3 frames). -/
def detectAnomalyMap (codec : Codec) (opts : Options) (fs : List Frame) : AMap :=
  if fs.length < 3 then [] else anomalyMapM4 codec opts fs

/-- The inner `for (let dist = 2; dist < numFrames; dist++)` search for the
nearest good frame, earlier candidate first at each distance.  The loop is
written with an explicit iteration budget (`fuel`), always called with enough
budget to reach the `numFrames ≤ dist` exit. -/
def resolveOutward (badIdx : List Nat) (numFrames index : Nat) :
    Nat → Nat → Nat → Nat
  | 0, _, fallback => fallback
  | fuel + 1, dist, fallback =>
    if numFrames ≤ dist then fallback
    else if dist ≤ index ∧ (index - dist) ∉ badIdx then index - dist
    else if index + dist < numFrames ∧ (index + dist) ∉ badIdx then index + dist
    else resolveOutward badIdx numFrames index fuel (dist + 1) fallback

/-- The replacement resolution of `detectBadFrames`: default to a neighbor,
prefer the predecessor when good, else the successor when good, else search
outward at increasing distance. -/
def resolveReplacement (badIdx : List Nat) (numFrames index : Nat) : Nat :=
  let dflt := if 0 < index then index - 1 else index + 1
  if 0 < index ∧ (index - 1) ∉ badIdx then index - 1
  else if index < numFrames - 1 ∧ (index + 1) ∉ badIdx then index + 1
  else resolveOutward badIdx numFrames index (numFrames - 2) 2 dflt

/-- One entry of the final `badFrames` list. -/
structure BadFrameRecord where
  index : Nat
  reasons : List Anomaly
  replacement : Nat
  severity : Severity
deriving DecidableEq

/-- Result of `detectBadFrames`. -/
structure DetectionResult where
  badFrames : List BadFrameRecord
  methodsUsed : List String
deriving DecidableEq

/-- The `methodsUsed` names pushed for a run with at least 3 frames. -/
def detectionMethodNames : List String :=
  ["color_histogram", "alpha_analysis", "structural_similarity", "pixel_outlier"]

/-- Build one `BadFrameRecord` from a map entry: the resolved replacement and
the aggregate severity (severe iff any reason is severe). -/
def mkBadRecord (badIdx : List Nat) (numFrames : Nat) (e : Nat × List Anomaly) :
    BadFrameRecord :=
  ⟨e.1, e.2, resolveReplacement badIdx numFrames e.1,
   if e.2.any (fun r => r.severity == Severity.severe) then .severe else .moderate⟩

/-- The key list of an anomaly map: the `badIndices` set of flagged frames. -/
def keysOf (m : AMap) : List Nat :=
  m.map (fun e => e.1)

/-- `detectBadFrames(frameBuffers, options)`: empty for fewer than 3 frames,
else the per-index anomaly records with replacements, sorted by index. -/
def detectBadFrames (codec : Codec) (opts : Options) (fs : List Frame) :
    DetectionResult :=
  if fs.length < 3 then ⟨[], []⟩ else
  let m := detectAnomalyMap codec opts fs
  let records := m.map (mkBadRecord (keysOf m) fs.length)
  ⟨List.insertionSort (fun a b => a.index ≤ b.index) records, detectionMethodNames⟩

/-- `replaceBadFrames(frameBuffers, badFrameInfos)`: in order, overwrite each
bad index with the current content of its replacement index. -/
def replaceBadFrames (fs : List Frame) (bad : List BadFrameRecord) : List Frame :=
  bad.foldl (fun frames b => frames.set b.index (frames.getD b.replacement dFrame)) fs

/-- Content bounding box returned by `findContentBounds`. -/
structure Bounds where
  x : Nat
  y : Nat
  width : Nat
  height : Nat
deriving DecidableEq

/-- `findContentBounds(data, width, height)`: tight min/max of the coordinates
whose alpha exceeds `ALPHA_THRESHOLD = 20`, falling back to the whole frame
when no pixel qualifies. -/
def findContentBounds (f : Frame) : Bounds :=
  let r := (coordsYX f.width f.height).foldl
    (fun acc c =>
      if 20 < (f.px c.1 c.2).a then
        (min acc.1 c.1, max acc.2.1 c.1, min acc.2.2.1 c.2, max acc.2.2.2 c.2)
      else acc)
    (f.width, 0, f.height, 0)
  if r.2.1 < r.1 ∨ r.2.2.2 < r.2.2.1 then ⟨0, 0, f.width, f.height⟩
  else ⟨r.1, r.2.2.1, r.2.1 - r.1 + 1, r.2.2.2 - r.2.2.1 + 1⟩

/-- The fully transparent background pixel of the stabilization canvas. -/
def transparentPix : Pix := ⟨0, 0, 0, 0⟩

/-- `sharp(buf).extract({left, top, width, height})`: crop to a rectangle. -/
def extract (f : Frame) (b : Bounds) : Frame :=
  ⟨b.width, b.height, fun x y => f.px (b.x + x) (b.y + y)⟩

/-- Composite a content image onto a transparent canvas at `(left, top)`
(source-over onto full transparency copies the source). -/
def compositeOnCanvas (cw chh : Nat) (content : Frame) (left top : Nat) : Frame :=
  ⟨cw, chh, fun x y =>
    if left ≤ x ∧ x < left + content.width ∧ top ≤ y ∧ y < top + content.height then
      content.px (x - left) (y - top)
    else transparentPix⟩

/-- `Math.max(...frameData.map(f => f.bounds.width))`. -/
def maxContentWidthOf (fs : List Frame) : Nat :=
  (fs.map (fun f => (findContentBounds f).width)).foldl max 0

/-- `Math.max(...frameData.map(f => f.bounds.height))`. -/
def maxContentHeightOf (fs : List Frame) : Nat :=
  (fs.map (fun f => (findContentBounds f).height)).foldl max 0

/-- Stabilize one frame: crop to its content bounds, then composite onto the
uniform canvas, horizontally centered and anchored to the bottom edge. -/
def stabilizeOne (cw chh : Nat) (buf : Frame) (bounds : Bounds) : Frame :=
  let content := extract buf bounds
  let left := (cw - bounds.width) / 2
  let top := chh - bounds.height
  compositeOnCanvas cw chh content left top

/-- `stabilizeFrames(frameBuffers)`: uniform canvas of
`(maxContentWidth + 40, maxContentHeight + 40)`, each frame cropped to its
content and re-anchored bottom-center. -/
def stabilizeFrames (fs : List Frame) : List Frame :=
  let frameData := fs.map (fun buf => (buf, findContentBounds buf))
  let canvasWidth := maxContentWidthOf fs + 40
  let canvasHeight := maxContentHeightOf fs + 40
  frameData.map (fun fd => stabilizeOne canvasWidth canvasHeight fd.1 fd.2)

/-- The advisory issues reported by `verifyFrames`. -/
inductive Issue where
  | inconsistentSizes (sizes : List (Nat × Nat))
  | largeVariance (diffRatio : ℚ)
deriving DecidableEq

/-- Result of `verifyFrames`. -/
structure VerifyResult where
  passed : Bool
  issues : List Issue
deriving DecidableEq

/-- The `checkIndices` sampled for more than 2 frames: first, middle, last. -/
def sampleIndices (n : Nat) : List Nat := [0, n / 2, n - 1]

/-- The pixel-difference ratios between consecutive sampled frames, computed
against the first frame's dimensions. -/
def sampledDiffRatios (pd : Frame → Frame → Nat → Nat → Nat) (fs : List Frame) :
    List ℚ :=
  let w0 := (fs.getD 0 dFrame).width
  let h0 := (fs.getD 0 dFrame).height
  let raws := (sampleIndices fs.length).map (fun i => fs.getD i dFrame)
  (List.range (raws.length - 1)).map (fun i =>
    ((pd (raws.getD i dFrame) (raws.getD (i + 1) dFrame) w0 h0 : Nat) : ℚ) /
      (((w0 * h0 : Nat) : ℚ)))

/-- `verifyFrames(frameBuffers)`: inconsistent-size issue when the frames do
not all share one size, and a large-variance issue for every sampled diff
ratio above 0.30; `passed` iff no issues. -/
def verifyFrames (pd : Frame → Frame → Nat → Nat → Nat) (fs : List Frame) :
    VerifyResult :=
  let sizes := (fs.map (fun f => (f.width, f.height))).dedup
  let sizeIssues := if 1 < sizes.length then [Issue.inconsistentSizes sizes] else []
  let varianceIssues :=
    if 2 < fs.length then
      (sampledDiffRatios pd fs).filterMap
        (fun q => if 30/100 < q then some (Issue.largeVariance q) else none)
    else []
  let issues := sizeIssues ++ varianceIssues
  ⟨issues.isEmpty, issues⟩

/-- The diagnostic report assembled by `autoFix`. -/
structure Report where
  totalFrames : Nat
  badFrames : List BadFrameRecord
  replacements : List (Nat × Nat × List Anomaly)
  stabilized : Bool
  detectionMethods : List String
  verified : Bool
  verificationDetails : VerifyResult
deriving DecidableEq

/-- Result of the `autoFix` pipeline. -/
structure FixResult where
  frames : List Frame
  report : Report

/-- `autoFix(frameBuffers, options)`: detect, replace when something was
flagged, stabilize always, verify always, and assemble the report. -/
def autoFix (codec : Codec) (opts : Options) (frameBuffers : List Frame) : FixResult :=
  let detection := detectBadFrames codec opts frameBuffers
  let frames1 :=
    if detection.badFrames.isEmpty then frameBuffers
    else replaceBadFrames frameBuffers detection.badFrames
  let frames2 := stabilizeFrames frames1
  let finalCheck := verifyFrames codec.pixelDiff frames2
  ⟨frames2,
   ⟨frameBuffers.length, detection.badFrames,
    detection.badFrames.map (fun b => (b.index, b.replacement, b.reasons)),
    true, detection.methodsUsed, finalCheck.passed, finalCheck⟩⟩

/-- A coordinate whose pixel passes the stabilization alpha threshold
(`ALPHA_THRESHOLD = 20`) inside the frame. -/
def QualPix (f : Frame) (c : Nat × Nat) : Prop :=
  c.1 < f.width ∧ c.2 < f.height ∧ 20 < (f.px c.1 c.2).a

instance (f : Frame) (c : Nat × Nat) : Decidable (QualPix f c) := by
  unfold QualPix; infer_instance

/-- The coordinates of a frame that pass the alpha threshold, in scan order. -/
def qualPixList (f : Frame) : List (Nat × Nat) :=
  (coordsYX f.width f.height).filter (fun c => 20 < (f.px c.1 c.2).a)

/-- A frame with at least one pixel above the stabilization alpha threshold. -/
def hasContent (f : Frame) : Prop :=
  ∃ c : Nat × Nat, QualPix f c

/-- The `minX` accumulator of `findContentBounds`, as a fold over the
qualifying coordinates. -/
def fcbMinX (f : Frame) : Nat :=
  (qualPixList f).foldl (fun m c => min m c.1) f.width

/-- The `maxX` accumulator of `findContentBounds`. -/
def fcbMaxX (f : Frame) : Nat :=
  (qualPixList f).foldl (fun m c => max m c.1) 0

/-- The `minY` accumulator of `findContentBounds`. -/
def fcbMinY (f : Frame) : Nat :=
  (qualPixList f).foldl (fun m c => min m c.2) f.height

/-- The `maxY` accumulator of `findContentBounds`. -/
def fcbMaxY (f : Frame) : Nat :=
  (qualPixList f).foldl (fun m c => max m c.2) 0

/-- The textbook nearest-rank quantile used as an independent reference: the
ceil(p*n)-th smallest value (1-indexed), with no interpolation. -/
def nearestRankQuantile (p : ℚ) (l : List ℚ) : ℚ :=
  (sortQ l).getD ((p * (l.length : ℚ)).ceil.toNat - 1) 0

/-- The opacity-ratio example list `[0.1, 0.5, 0.5, 0.5, 0.9]`. -/
def ratioExample : List ℚ := [1/10, 1/2, 1/2, 1/2, 9/10]

/-- A concrete instantiation of the codec collaborator: resize is the identity
(all test frames already share the target size) and the pixel diff reports no
differing pixels. -/
def trivCodec : Codec := ⟨fun f _ _ => f, fun _ _ _ _ => 0⟩

/-- A 1-by-1 fully opaque frame. -/
def opaq1 : Frame := ⟨1, 1, fun _ _ => ⟨50, 50, 50, 255⟩⟩

/-- A 1-by-1 fully transparent frame. -/
def transp1 : Frame := ⟨1, 1, fun _ _ => ⟨0, 0, 0, 0⟩⟩

/-- A 130-pixel row with `g` dark-green pixels, `br` brown pixels, and the
rest dark, all fully opaque. -/
def rowFrame (g br : Nat) : Frame :=
  ⟨130, 1, fun x _ =>
    if x < g then ⟨0, 100, 0, 255⟩
    else if x < g + br then ⟨100, 80, 60, 255⟩
    else ⟨50, 50, 50, 255⟩⟩

/-- Three frames in which every frame starves a different color bucket, so
every frame is flagged by the color-histogram method and no good frame
exists. -/
def allBadFrames : List Frame := [rowFrame 10 60, rowFrame 60 10, rowFrame 60 60]

/-- A 1-by-10 row with `k` opaque dark pixels and the rest transparent. -/
def alphaRow (k : Nat) : Frame :=
  ⟨10, 1, fun x _ => if x < k then ⟨50, 50, 50, 255⟩ else ⟨0, 0, 0, 0⟩⟩

/-- Five frames whose opaque ratios are `[0.1, 0.1, 0.1, 0.2, 0.9]`: the last
frame lies above the upper IQR bound by more than one extra IQR. -/
def opacityFrames : List Frame :=
  [alphaRow 1, alphaRow 1, alphaRow 1, alphaRow 2, alphaRow 9]

/-- A 1-by-60 row whose first `k` pixels are dark green and the rest
transparent. -/
def greenRow (k : Nat) : Frame :=
  ⟨60, 1, fun x _ => if x < k then ⟨0, 100, 0, 255⟩ else ⟨0, 0, 0, 0⟩⟩

/-- Three frames identical except the last, whose dark-green bucket count is
10 percent of the common value 60. -/
def greenLossFrames : List Frame := [greenRow 60, greenRow 60, greenRow 6]

/-- A 2-by-1 fully opaque frame (a size mismatch partner for `opaq1`). -/
def wide1 : Frame := ⟨2, 1, fun _ _ => ⟨50, 50, 50, 255⟩⟩

/-- A pixel-diff collaborator that reports every pixel differing exactly when
the two frames have different widths. -/
def widthDiffPd : Frame → Frame → Nat → Nat → Nat :=
  fun f g _ _ => if f.width == g.width then 0 else 1

/-- Absolute distance between two frame indices. -/
def idxDist (a b : Nat) : Nat := max (a - b) (b - a)

/-!
Theorems.  Generic helper lemmas first, then one theorem per claim (with
witnesses and counterexamples where required).
-/

theorem length_replaceBadFrames : ∀ (bad : List BadFrameRecord) (fs : List Frame),
    (replaceBadFrames fs bad).length = fs.length
  | [], _ => rfl
  | b :: rest, fs => by
    show (replaceBadFrames (fs.set b.index (fs.getD b.replacement dFrame)) rest).length =
      fs.length
    rw [length_replaceBadFrames rest]
    exact List.length_set fs b.index _

theorem length_stabilizeFrames (fs : List Frame) :
    (stabilizeFrames fs).length = fs.length := by
  simp [stabilizeFrames]

/-- C10: the output frame sequence of the pipeline has exactly the input
length (replacement substitutes in place, stabilization maps one frame to one
frame), and the report's `totalFrames` equals the input length. -/
theorem pipeline_preserves_frame_count (codec : Codec) (opts : Options) (fs : List Frame) :
    (autoFix codec opts fs).frames.length = fs.length ∧
    (autoFix codec opts fs).report.totalFrames = fs.length := by
  refine ⟨?_, rfl⟩
  show (stabilizeFrames _).length = fs.length
  rw [length_stabilizeFrames]
  by_cases h : (detectBadFrames codec opts fs).badFrames.isEmpty <;>
    simp [h, length_replaceBadFrames]

/-- C7: a sequence with fewer than 3 frames skips detection (empty bad-frame
set, no replacement), but still runs stabilization and verification and
returns a corrected sequence plus report. -/
theorem small_sequence_skips_detection (codec : Codec) (opts : Options)
    (fs : List Frame) (h : fs.length < 3) :
    detectBadFrames codec opts fs = ⟨[], []⟩ ∧
    (autoFix codec opts fs).frames = stabilizeFrames fs ∧
    (autoFix codec opts fs).report.badFrames = [] ∧
    (autoFix codec opts fs).report.replacements = [] ∧
    (autoFix codec opts fs).report.stabilized = true ∧
    (autoFix codec opts fs).report.verificationDetails =
      verifyFrames codec.pixelDiff (stabilizeFrames fs) ∧
    (autoFix codec opts fs).report.verified =
      (verifyFrames codec.pixelDiff (stabilizeFrames fs)).passed ∧
    (autoFix codec opts fs).report.totalFrames = fs.length := by
  have hd : detectBadFrames codec opts fs = ⟨[], []⟩ := by
    simp [detectBadFrames, h]
  refine ⟨hd, ?_, ?_, ?_, ?_, ?_, ?_, ?_⟩ <;> simp [autoFix, hd]

/-- Witness for C7 at a concrete two-frame sequence. -/
theorem small_sequence_skips_detection_witness :
    [opaq1, opaq1].length < 3 ∧
    (autoFix trivCodec defaultOptions [opaq1, opaq1]).frames =
      stabilizeFrames [opaq1, opaq1] ∧
    (autoFix trivCodec defaultOptions [opaq1, opaq1]).report.badFrames = [] :=
  ⟨by decide,
   (small_sequence_skips_detection trivCodec defaultOptions _ (by decide)).2.1,
   (small_sequence_skips_detection trivCodec defaultOptions _ (by decide)).2.2.1⟩

theorem length_sortQ (l : List ℚ) : (sortQ l).length = l.length :=
  (List.perm_insertionSort _ l).length_eq

/-- C3: the aggregator's median is `sorted[floor(n/2)]` and its quartiles are
`sorted[floor(n*0.25)]` and `sorted[floor(n*0.75)]` by nearest-rank selection;
on the opacity ratios `[0.1, 0.5, 0.5, 0.5, 0.9]` the computed Q1 and Q3
equal a reference nearest-rank implementation exactly. -/
theorem nearest_rank_quartiles (l : List ℚ) (_h : l ≠ []) :
    getMedianQ l = (sortQ l).getD (l.length / 2) 0 ∧
    q1Of l = (sortQ l).getD (l.length / 4) 0 ∧
    q3Of l = (sortQ l).getD (3 * l.length / 4) 0 ∧
    q1Of ratioExample = nearestRankQuantile (1/4) ratioExample ∧
    q3Of ratioExample = nearestRankQuantile (3/4) ratioExample ∧
    q1Of ratioExample = 1/2 ∧ q3Of ratioExample = 1/2 := by
  refine ⟨?_, ?_, ?_, by decide, by decide, by decide, by decide⟩ <;>
    simp [getMedianQ, q1Of, q3Of, length_sortQ]

/-- Witness for C3 at the example list. -/
theorem nearest_rank_quartiles_witness :
    ratioExample ≠ [] ∧ q1Of ratioExample = 1/2 :=
  ⟨by decide, (nearest_rank_quartiles ratioExample (by decide)).2.2.2.2.2.1⟩

theorem one_lt_length_of_two_mem {α : Type} {l : List α} {a b : α}
    (ha : a ∈ l) (hb : b ∈ l) (hab : a ≠ b) : 1 < l.length := by
  match l with
  | [] => exact absurd ha (List.not_mem_nil a)
  | [x] =>
    have hax : a = x := by simpa using ha
    have hbx : b = x := by simpa using hb
    exact absurd (hax.trans hbx.symm) hab
  | x :: y :: ys =>
    simp only [List.length_cons]
    omega

/-- C9: the verifier returns `passed` iff its issue list is empty, reports an
issue whenever the frames do not all share one size, samples first, middle
(`floor(N/2)`), and last frames for more than 2 frames and flags a
large-variance issue exactly for sampled diff ratios above 0.30; it never
modifies frames — the pipeline's output is fully determined before
verification runs. -/
theorem verifier_advisory (pd : Frame → Frame → Nat → Nat → Nat) (fs : List Frame)
    (r : ℚ) (codec : Codec) (opts : Options) :
    ((verifyFrames pd fs).passed = true ↔ (verifyFrames pd fs).issues = []) ∧
    ((∃ f ∈ fs, ∃ g ∈ fs, (f.width, f.height) ≠ (g.width, g.height)) →
      (verifyFrames pd fs).issues ≠ []) ∧
    (2 < fs.length →
      (Issue.largeVariance r ∈ (verifyFrames pd fs).issues ↔
        r ∈ sampledDiffRatios pd fs ∧ 30/100 < r)) ∧
    ((autoFix codec opts fs).frames =
      stabilizeFrames (replaceBadFrames fs (detectBadFrames codec opts fs).badFrames)) := by
  refine ⟨?_, ?_, ?_, ?_⟩
  · simp [verifyFrames, List.isEmpty_iff]
  · rintro ⟨f, hf, g, hg, hne⟩
    have hfm : (f.width, f.height) ∈ (fs.map (fun f => (f.width, f.height))).dedup :=
      List.mem_dedup.mpr (List.mem_map_of_mem _ hf)
    have hgm : (g.width, g.height) ∈ (fs.map (fun f => (f.width, f.height))).dedup :=
      List.mem_dedup.mpr (List.mem_map_of_mem _ hg)
    have hlen : 1 < (fs.map (fun f => (f.width, f.height))).dedup.length :=
      one_lt_length_of_two_mem hfm hgm hne
    simp only [verifyFrames, if_pos hlen]
    simp
  · intro h3
    simp only [verifyFrames, if_pos h3]
    constructor
    · intro hm
      rcases List.mem_append.mp hm with hm | hm
      · exfalso
        split at hm <;> simp at hm
      · rcases List.mem_filterMap.mp hm with ⟨q, hq, hsome⟩
        by_cases hgt : 30/100 < q
        · rw [if_pos hgt] at hsome
          have hqr : q = r := by
            have := Option.some.inj hsome
            injection this
          exact ⟨hqr ▸ hq, hqr ▸ hgt⟩
        · rw [if_neg hgt] at hsome
          exact absurd hsome (by simp)
    · rintro ⟨hq, hgt⟩
      exact List.mem_append.mpr (Or.inr (List.mem_filterMap.mpr ⟨r, hq, by rw [if_pos hgt]⟩))
  · simp only [autoFix]
    split
    · rename_i hempty
      have : (detectBadFrames codec opts fs).badFrames = [] := by
        simpa [List.isEmpty_iff] using hempty
      rw [this]
      rfl
    · rfl

/-- Witness for C9: a three-frame sequence with one mismatched size and a
diff collaborator that makes the first sampled ratio 0.5. -/
theorem verifier_advisory_witness :
    (verifyFrames widthDiffPd [wide1, opaq1, opaq1]).issues ≠ [] ∧
    Issue.largeVariance (1/2) ∈ (verifyFrames widthDiffPd [wide1, opaq1, opaq1]).issues :=
  ⟨(verifier_advisory widthDiffPd [wide1, opaq1, opaq1] (1/2) trivCodec defaultOptions).2.1
     ⟨wide1, by simp, opaq1, by simp, by decide⟩,
   ((verifier_advisory widthDiffPd [wide1, opaq1, opaq1] (1/2) trivCodec
       defaultOptions).2.2.1 (by decide)).mpr ⟨by decide, by decide⟩⟩

theorem foldl_condStep_eq_filter {α β : Type} (p : α → Prop) [DecidablePred p]
    (f : β → α → β) :
    ∀ (l : List α) (i : β),
    l.foldl (fun acc a => if p a then f acc a else acc) i =
      (l.filter (fun a => decide (p a))).foldl f i
  | [], _ => rfl
  | a :: l, i => by
    by_cases h : p a <;>
      simp [List.filter_cons, h, foldl_condStep_eq_filter p f l]

theorem foldl_prod4_split {α : Type} (g1 g2 g3 g4 : Nat → α → Nat) :
    ∀ (l : List α) (a : Nat × Nat × Nat × Nat),
    l.foldl (fun acc c => (g1 acc.1 c, g2 acc.2.1 c, g3 acc.2.2.1 c, g4 acc.2.2.2 c)) a =
      (l.foldl g1 a.1, l.foldl g2 a.2.1, l.foldl g3 a.2.2.1, l.foldl g4 a.2.2.2)
  | [], _ => rfl
  | x :: l, a => foldl_prod4_split g1 g2 g3 g4 l
      (g1 a.1 x, g2 a.2.1 x, g3 a.2.2.1 x, g4 a.2.2.2 x)

theorem foldl_minBy_le_init {α : Type} (g : α → Nat) :
    ∀ (l : List α) (a : Nat), l.foldl (fun m c => min m (g c)) a ≤ a
  | [], _ => le_refl _
  | x :: l, a => le_trans (foldl_minBy_le_init g l (min a (g x))) (min_le_left _ _)

theorem foldl_minBy_le_mem {α : Type} (g : α → Nat) :
    ∀ (l : List α) (a : Nat) (x : α), x ∈ l →
      l.foldl (fun m c => min m (g c)) a ≤ g x
  | x' :: l, a, x, hx => by
    rcases List.mem_cons.mp hx with h | h
    · subst h
      exact le_trans (foldl_minBy_le_init g l _) (min_le_right _ _)
    · exact foldl_minBy_le_mem g l _ x h

theorem foldl_minBy_eq_init_or_mem {α : Type} (g : α → Nat) :
    ∀ (l : List α) (a : Nat),
      l.foldl (fun m c => min m (g c)) a = a ∨
        ∃ x ∈ l, l.foldl (fun m c => min m (g c)) a = g x
  | [], _ => Or.inl rfl
  | x :: l, a => by
    rcases foldl_minBy_eq_init_or_mem g l (min a (g x)) with h | ⟨y, hy, hEq⟩
    · rcases le_total a (g x) with hle | hle
      · exact Or.inl (h.trans (min_eq_left hle))
      · exact Or.inr ⟨x, List.mem_cons_self x l, h.trans (min_eq_right hle)⟩
    · exact Or.inr ⟨y, List.mem_cons_of_mem _ hy, hEq⟩

theorem foldl_maxBy_init_le {α : Type} (g : α → Nat) :
    ∀ (l : List α) (a : Nat), a ≤ l.foldl (fun m c => max m (g c)) a
  | [], _ => le_refl _
  | x :: l, a => le_trans (le_max_left _ _) (foldl_maxBy_init_le g l (max a (g x)))

theorem foldl_maxBy_mem_le {α : Type} (g : α → Nat) :
    ∀ (l : List α) (a : Nat) (x : α), x ∈ l →
      g x ≤ l.foldl (fun m c => max m (g c)) a
  | x' :: l, a, x, hx => by
    rcases List.mem_cons.mp hx with h | h
    · subst h
      exact le_trans (le_max_right _ _) (foldl_maxBy_init_le g l _)
    · exact foldl_maxBy_mem_le g l _ x h

theorem foldl_maxBy_eq_init_or_mem {α : Type} (g : α → Nat) :
    ∀ (l : List α) (a : Nat),
      l.foldl (fun m c => max m (g c)) a = a ∨
        ∃ x ∈ l, l.foldl (fun m c => max m (g c)) a = g x
  | [], _ => Or.inl rfl
  | x :: l, a => by
    rcases foldl_maxBy_eq_init_or_mem g l (max a (g x)) with h | ⟨y, hy, hEq⟩
    · rcases le_total a (g x) with hle | hle
      · exact Or.inr ⟨x, List.mem_cons_self x l, h.trans (max_eq_right hle)⟩
      · exact Or.inl (h.trans (max_eq_left hle))
    · exact Or.inr ⟨y, List.mem_cons_of_mem _ hy, hEq⟩

theorem mem_coordsYX {w h : Nat} {c : Nat × Nat} :
    c ∈ coordsYX w h ↔ c.1 < w ∧ c.2 < h := by
  cases c with
  | mk x y =>
    simp only [coordsYX, List.mem_flatMap, List.mem_map, List.mem_range]
    constructor
    · rintro ⟨y', hy', x', hx', hEq⟩
      cases hEq
      exact ⟨hx', hy'⟩
    · rintro ⟨hx, hy⟩
      exact ⟨y, hy, x, hx, rfl⟩

theorem mem_qualPixList {f : Frame} {c : Nat × Nat} :
    c ∈ qualPixList f ↔ QualPix f c := by
  simp only [qualPixList, List.mem_filter, mem_coordsYX, QualPix, decide_eq_true_eq]
  tauto

theorem hasContent_iff_ne_nil {f : Frame} : hasContent f ↔ qualPixList f ≠ [] := by
  constructor
  · rintro ⟨c, hc⟩
    exact List.ne_nil_of_mem (mem_qualPixList.mpr hc)
  · intro h
    obtain ⟨c, hc⟩ := List.exists_mem_of_ne_nil _ h
    exact ⟨c, mem_qualPixList.mp hc⟩

theorem findContentBounds_eq_fold (f : Frame) :
    findContentBounds f =
      if fcbMaxX f < fcbMinX f ∨ fcbMaxY f < fcbMinY f then ⟨0, 0, f.width, f.height⟩
      else ⟨fcbMinX f, fcbMinY f, fcbMaxX f - fcbMinX f + 1, fcbMaxY f - fcbMinY f + 1⟩ := by
  have hfold : (coordsYX f.width f.height).foldl
      (fun acc c =>
        if 20 < (f.px c.1 c.2).a then
          (min acc.1 c.1, max acc.2.1 c.1, min acc.2.2.1 c.2, max acc.2.2.2 c.2)
        else acc)
      (f.width, 0, f.height, 0) =
      (fcbMinX f, fcbMaxX f, fcbMinY f, fcbMaxY f) := by
    have h1 := foldl_condStep_eq_filter (fun c : Nat × Nat => 20 < (f.px c.1 c.2).a)
      (fun (acc : Nat × Nat × Nat × Nat) (c : Nat × Nat) =>
        (min acc.1 c.1, max acc.2.1 c.1, min acc.2.2.1 c.2, max acc.2.2.2 c.2))
      (coordsYX f.width f.height) (f.width, 0, f.height, 0)
    rw [h1]
    exact foldl_prod4_split (fun m c => min m c.1) (fun m c => max m c.1)
      (fun m c => min m c.2) (fun m c => max m c.2) (qualPixList f)
      (f.width, 0, f.height, 0)
  simp only [findContentBounds]
  rw [hfold]

theorem findContentBounds_spec (f : Frame) (hc : hasContent f) :
    (∀ c, QualPix f c →
      (findContentBounds f).x ≤ c.1 ∧
      c.1 < (findContentBounds f).x + (findContentBounds f).width ∧
      (findContentBounds f).y ≤ c.2 ∧
      c.2 < (findContentBounds f).y + (findContentBounds f).height) ∧
    (∃ c, QualPix f c ∧ c.1 = (findContentBounds f).x) ∧
    (∃ c, QualPix f c ∧ c.1 = (findContentBounds f).x + ((findContentBounds f).width - 1)) ∧
    (∃ c, QualPix f c ∧ c.2 = (findContentBounds f).y) ∧
    (∃ c, QualPix f c ∧ c.2 = (findContentBounds f).y + ((findContentBounds f).height - 1)) ∧
    (findContentBounds f).x + (findContentBounds f).width ≤ f.width ∧
    (findContentBounds f).y + (findContentBounds f).height ≤ f.height ∧
    0 < (findContentBounds f).width ∧ 0 < (findContentBounds f).height := by
  obtain ⟨c0, hc0⟩ := hc
  have hm0 : c0 ∈ qualPixList f := mem_qualPixList.mpr hc0
  have hminx_le : ∀ c ∈ qualPixList f, fcbMinX f ≤ c.1 :=
    fun c h => foldl_minBy_le_mem Prod.fst _ _ c h
  have hmaxx_ge : ∀ c ∈ qualPixList f, c.1 ≤ fcbMaxX f :=
    fun c h => foldl_maxBy_mem_le Prod.fst _ _ c h
  have hminy_le : ∀ c ∈ qualPixList f, fcbMinY f ≤ c.2 :=
    fun c h => foldl_minBy_le_mem Prod.snd _ _ c h
  have hmaxy_ge : ∀ c ∈ qualPixList f, c.2 ≤ fcbMaxY f :=
    fun c h => foldl_maxBy_mem_le Prod.snd _ _ c h
  have hxlt : ∀ c ∈ qualPixList f, c.1 < f.width := fun c h => (mem_qualPixList.mp h).1
  have hylt : ∀ c ∈ qualPixList f, c.2 < f.height :=
    fun c h => (mem_qualPixList.mp h).2.1
  have hminx_mem : ∃ c ∈ qualPixList f, fcbMinX f = c.1 := by
    rcases foldl_minBy_eq_init_or_mem Prod.fst (qualPixList f) f.width with h | h
    · have h0 : fcbMinX f = f.width := h
      have h1 := hminx_le c0 hm0
      have h2 := hxlt c0 hm0
      omega
    · exact h
  have hmaxx_mem : ∃ c ∈ qualPixList f, fcbMaxX f = c.1 := by
    rcases foldl_maxBy_eq_init_or_mem Prod.fst (qualPixList f) 0 with h | h
    · have h0 : fcbMaxX f = 0 := h
      have h1 := hmaxx_ge c0 hm0
      exact ⟨c0, hm0, by omega⟩
    · exact h
  have hminy_mem : ∃ c ∈ qualPixList f, fcbMinY f = c.2 := by
    rcases foldl_minBy_eq_init_or_mem Prod.snd (qualPixList f) f.height with h | h
    · have h0 : fcbMinY f = f.height := h
      have h1 := hminy_le c0 hm0
      have h2 := hylt c0 hm0
      omega
    · exact h
  have hmaxy_mem : ∃ c ∈ qualPixList f, fcbMaxY f = c.2 := by
    rcases foldl_maxBy_eq_init_or_mem Prod.snd (qualPixList f) 0 with h | h
    · have h0 : fcbMaxY f = 0 := h
      have h1 := hmaxy_ge c0 hm0
      exact ⟨c0, hm0, by omega⟩
    · exact h
  have hne : ¬(fcbMaxX f < fcbMinX f ∨ fcbMaxY f < fcbMinY f) := by
    have h1 := hminx_le c0 hm0
    have h2 := hmaxx_ge c0 hm0
    have h3 := hminy_le c0 hm0
    have h4 := hmaxy_ge c0 hm0
    omega
  have hb : findContentBounds f =
      ⟨fcbMinX f, fcbMinY f, fcbMaxX f - fcbMinX f + 1, fcbMaxY f - fcbMinY f + 1⟩ := by
    rw [findContentBounds_eq_fold, if_neg hne]
  obtain ⟨cx, hcxm, hcx⟩ := hminx_mem
  obtain ⟨cX, hcXm, hcX⟩ := hmaxx_mem
  obtain ⟨cy, hcym, hcy⟩ := hminy_mem
  obtain ⟨cY, hcYm, hcY⟩ := hmaxy_mem
  rw [hb]
  dsimp only
  refine ⟨?_, ?_, ?_, ?_, ?_, ?_, ?_, ?_, ?_⟩
  · intro c hq
    have hm := mem_qualPixList.mpr hq
    have h1 := hminx_le c hm
    have h2 := hmaxx_ge c hm
    have h3 := hminy_le c hm
    have h4 := hmaxy_ge c hm
    have h5 := hminx_le c0 hm0
    have h6 := hmaxx_ge c0 hm0
    have h7 := hminy_le c0 hm0
    have h8 := hmaxy_ge c0 hm0
    omega
  · exact ⟨cx, mem_qualPixList.mp hcxm, hcx.symm⟩
  · refine ⟨cX, mem_qualPixList.mp hcXm, ?_⟩
    have h1 := hminx_le cX hcXm
    omega
  · exact ⟨cy, mem_qualPixList.mp hcym, hcy.symm⟩
  · refine ⟨cY, mem_qualPixList.mp hcYm, ?_⟩
    have h1 := hminy_le cY hcYm
    omega
  · have h1 := hxlt cX hcXm
    have h2 := hminx_le cX hcXm
    omega
  · have h1 := hylt cY hcYm
    have h2 := hminy_le cY hcYm
    omega
  · omega
  · omega

theorem findContentBounds_eq_of (g : Frame) (mnx mxx mny mxy : Nat)
    (hub : ∀ c, QualPix g c → mnx ≤ c.1 ∧ c.1 ≤ mxx ∧ mny ≤ c.2 ∧ c.2 ≤ mxy)
    (h1 : ∃ c, QualPix g c ∧ c.1 = mnx) (h2 : ∃ c, QualPix g c ∧ c.1 = mxx)
    (h3 : ∃ c, QualPix g c ∧ c.2 = mny) (h4 : ∃ c, QualPix g c ∧ c.2 = mxy) :
    findContentBounds g = ⟨mnx, mny, mxx - mnx + 1, mxy - mny + 1⟩ := by
  obtain ⟨c1, hq1, he1⟩ := h1
  obtain ⟨c2, hq2, he2⟩ := h2
  obtain ⟨c3, hq3, he3⟩ := h3
  obtain ⟨c4, hq4, he4⟩ := h4
  have hub' : ∀ c ∈ qualPixList g, mnx ≤ c.1 ∧ c.1 ≤ mxx ∧ mny ≤ c.2 ∧ c.2 ≤ mxy :=
    fun c h => hub c (mem_qualPixList.mp h)
  have hm1 : c1 ∈ qualPixList g := mem_qualPixList.mpr hq1
  have hm2 : c2 ∈ qualPixList g := mem_qualPixList.mpr hq2
  have hm3 : c3 ∈ qualPixList g := mem_qualPixList.mpr hq3
  have hm4 : c4 ∈ qualPixList g := mem_qualPixList.mpr hq4
  have hvx : fcbMinX g = mnx := by
    have hle : fcbMinX g ≤ mnx := he1 ▸ foldl_minBy_le_mem Prod.fst _ _ c1 hm1
    rcases foldl_minBy_eq_init_or_mem Prod.fst (qualPixList g) g.width with h | ⟨c, hm, he⟩
    · have hlt : c1.1 < g.width := hq1.1
      have h0 : fcbMinX g = g.width := h
      omega
    · have h0 : fcbMinX g = c.1 := he
      have := (hub' c hm).1
      omega
  have hvX : fcbMaxX g = mxx := by
    have hge : mxx ≤ fcbMaxX g := he2 ▸ foldl_maxBy_mem_le Prod.fst _ _ c2 hm2
    rcases foldl_maxBy_eq_init_or_mem Prod.fst (qualPixList g) 0 with h | ⟨c, hm, he⟩
    · have h0 : fcbMaxX g = 0 := h
      omega
    · have h0 : fcbMaxX g = c.1 := he
      have := (hub' c hm).2.1
      omega
  have hvy : fcbMinY g = mny := by
    have hle : fcbMinY g ≤ mny := he3 ▸ foldl_minBy_le_mem Prod.snd _ _ c3 hm3
    rcases foldl_minBy_eq_init_or_mem Prod.snd (qualPixList g) g.height with h | ⟨c, hm, he⟩
    · have hlt : c3.2 < g.height := hq3.2.1
      have h0 : fcbMinY g = g.height := h
      omega
    · have h0 : fcbMinY g = c.2 := he
      have := (hub' c hm).2.2.1
      omega
  have hvY : fcbMaxY g = mxy := by
    have hge : mxy ≤ fcbMaxY g := he4 ▸ foldl_maxBy_mem_le Prod.snd _ _ c4 hm4
    rcases foldl_maxBy_eq_init_or_mem Prod.snd (qualPixList g) 0 with h | ⟨c, hm, he⟩
    · have h0 : fcbMaxY g = 0 := h
      omega
    · have h0 : fcbMaxY g = c.2 := he
      have := (hub' c hm).2.2.2
      omega
  have hne : ¬(fcbMaxX g < fcbMinX g ∨ fcbMaxY g < fcbMinY g) := by
    have ha := hub c1 hq1
    have hb := hub c3 hq3
    rw [hvx, hvX, hvy, hvY]
    omega
  rw [findContentBounds_eq_fold, if_neg hne, hvx, hvX, hvy, hvY]

theorem stabilizeOne_width (cw chh : Nat) (f : Frame) (b : Bounds) :
    (stabilizeOne cw chh f b).width = cw := rfl

theorem stabilizeOne_height (cw chh : Nat) (f : Frame) (b : Bounds) :
    (stabilizeOne cw chh f b).height = chh := rfl

theorem stabilizeOne_px (cw chh : Nat) (f : Frame) (b : Bounds) (x y : Nat) :
    (stabilizeOne cw chh f b).px x y =
      if (cw - b.width) / 2 ≤ x ∧ x < (cw - b.width) / 2 + b.width ∧
          chh - b.height ≤ y ∧ y < chh - b.height + b.height then
        f.px (b.x + (x - (cw - b.width) / 2)) (b.y + (y - (chh - b.height)))
      else transparentPix := rfl

theorem qualPix_stabilizeOne_iff (cw chh : Nat) (f : Frame) (b : Bounds)
    (hw : b.width ≤ cw) (hh : b.height ≤ chh) (c : Nat × Nat) :
    QualPix (stabilizeOne cw chh f b) c ↔
      ((cw - b.width) / 2 ≤ c.1 ∧ c.1 < (cw - b.width) / 2 + b.width ∧
        chh - b.height ≤ c.2 ∧ c.2 < chh - b.height + b.height ∧
        20 < (f.px (b.x + (c.1 - (cw - b.width) / 2))
          (b.y + (c.2 - (chh - b.height)))).a) := by
  have hl2 : (cw - b.width) / 2 + b.width ≤ cw := by
    have := Nat.div_le_self (cw - b.width) 2
    omega
  constructor
  · rintro ⟨hx, hy, ha⟩
    rw [show (stabilizeOne cw chh f b).px c.1 c.2 = _ from stabilizeOne_px cw chh f b c.1 c.2] at ha
    split at ha
    · rename_i hin
      exact ⟨hin.1, hin.2.1, hin.2.2.1, hin.2.2.2, ha⟩
    · exact absurd ha (by simp [transparentPix])
  · rintro ⟨h1, h2, h3, h4, ha⟩
    refine ⟨?_, ?_, ?_⟩
    · show c.1 < (stabilizeOne cw chh f b).width
      rw [stabilizeOne_width]
      omega
    · show c.2 < (stabilizeOne cw chh f b).height
      rw [stabilizeOne_height]
      omega
    · rw [show (stabilizeOne cw chh f b).px c.1 c.2 = _ from stabilizeOne_px cw chh f b c.1 c.2]
      rw [if_pos ⟨h1, h2, h3, h4⟩]
      exact ha

theorem findContentBounds_stabilizeOne (f : Frame) (hc : hasContent f) (cw chh : Nat)
    (hw : (findContentBounds f).width ≤ cw) (hh : (findContentBounds f).height ≤ chh) :
    findContentBounds (stabilizeOne cw chh f (findContentBounds f)) =
      ⟨(cw - (findContentBounds f).width) / 2, chh - (findContentBounds f).height,
        (findContentBounds f).width, (findContentBounds f).height⟩ := by
  obtain ⟨hub, ⟨ca, hqa, ha⟩, ⟨cb, hqb, hb⟩, ⟨cc, hqc, hcc⟩, ⟨cd, hqd, hd⟩,
    hxw, hyh, hw0, hh0⟩ := findContentBounds_spec f hc
  set b := findContentBounds f with hbdef
  set l := (cw - b.width) / 2 with hldef
  set t := chh - b.height with htdef
  have key : findContentBounds (stabilizeOne cw chh f b) =
      ⟨l, t, (l + (b.width - 1)) - l + 1, (t + (b.height - 1)) - t + 1⟩ := by
    apply findContentBounds_eq_of
    · intro c hq
      rw [qualPix_stabilizeOne_iff cw chh f b hw hh] at hq
      omega
    · refine ⟨(l, t + (ca.2 - b.y)), ?_, rfl⟩
      rw [qualPix_stabilizeOne_iff cw chh f b hw hh]
      have hu := hub ca hqa
      refine ⟨le_refl l, by omega, by omega, by omega, ?_⟩
      have hx : b.x + (l - l) = ca.1 := by omega
      have hy : b.y + (t + (ca.2 - b.y) - t) = ca.2 := by omega
      rw [hx, hy]
      exact hqa.2.2
    · refine ⟨(l + (b.width - 1), t + (cb.2 - b.y)), ?_, rfl⟩
      rw [qualPix_stabilizeOne_iff cw chh f b hw hh]
      have hu := hub cb hqb
      refine ⟨by omega, by omega, by omega, by omega, ?_⟩
      have hx : b.x + (l + (b.width - 1) - l) = cb.1 := by omega
      have hy : b.y + (t + (cb.2 - b.y) - t) = cb.2 := by omega
      rw [hx, hy]
      exact hqb.2.2
    · refine ⟨(l + (cc.1 - b.x), t), ?_, rfl⟩
      rw [qualPix_stabilizeOne_iff cw chh f b hw hh]
      have hu := hub cc hqc
      refine ⟨by omega, by omega, le_refl t, by omega, ?_⟩
      have hx : b.x + (l + (cc.1 - b.x) - l) = cc.1 := by omega
      have hy : b.y + (t - t) = cc.2 := by omega
      rw [hx, hy]
      exact hqc.2.2
    · refine ⟨(l + (cd.1 - b.x), t + (b.height - 1)), ?_, rfl⟩
      rw [qualPix_stabilizeOne_iff cw chh f b hw hh]
      have hu := hub cd hqd
      refine ⟨by omega, by omega, by omega, by omega, ?_⟩
      have hx : b.x + (l + (cd.1 - b.x) - l) = cd.1 := by omega
      have hy : b.y + (t + (b.height - 1) - t) = cd.2 := by omega
      rw [hx, hy]
      exact hqd.2.2
  rw [key]
  have e1 : (l + (b.width - 1)) - l + 1 = b.width := by omega
  have e2 : (t + (b.height - 1)) - t + 1 = b.height := by omega
  rw [e1, e2]

theorem stabilizeFrames_eq_map (fs : List Frame) :
    stabilizeFrames fs = fs.map (fun f =>
      stabilizeOne (maxContentWidthOf fs + 40) (maxContentHeightOf fs + 40) f
        (findContentBounds f)) := by
  simp only [stabilizeFrames, List.map_map]
  rfl

theorem width_le_maxContentWidthOf {fs : List Frame} {f : Frame} (hf : f ∈ fs) :
    (findContentBounds f).width ≤ maxContentWidthOf fs := by
  unfold maxContentWidthOf
  rw [List.foldl_map]
  exact foldl_maxBy_mem_le (fun f => (findContentBounds f).width) fs 0 f hf

theorem height_le_maxContentHeightOf {fs : List Frame} {f : Frame} (hf : f ∈ fs) :
    (findContentBounds f).height ≤ maxContentHeightOf fs := by
  unfold maxContentHeightOf
  rw [List.foldl_map]
  exact foldl_maxBy_mem_le (fun f => (findContentBounds f).height) fs 0 f hf

theorem maxContent_stabilize (fs : List Frame) (hc : ∀ f ∈ fs, hasContent f) :
    maxContentWidthOf (stabilizeFrames fs) = maxContentWidthOf fs ∧
    maxContentHeightOf (stabilizeFrames fs) = maxContentHeightOf fs := by
  have hmap : (stabilizeFrames fs).map (fun f => (findContentBounds f).width) =
      fs.map (fun f => (findContentBounds f).width) ∧
      (stabilizeFrames fs).map (fun f => (findContentBounds f).height) =
      fs.map (fun f => (findContentBounds f).height) := by
    rw [stabilizeFrames_eq_map, List.map_map, List.map_map]
    constructor <;>
    · apply List.map_congr_left
      intro f hf
      have hb := findContentBounds_stabilizeOne f (hc f hf)
        (maxContentWidthOf fs + 40) (maxContentHeightOf fs + 40)
        (le_trans (width_le_maxContentWidthOf hf) (Nat.le_add_right _ _))
        (le_trans (height_le_maxContentHeightOf hf) (Nat.le_add_right _ _))
      simp [Function.comp, hb]
  unfold maxContentWidthOf maxContentHeightOf
  rw [hmap.1, hmap.2]
  exact ⟨rfl, rfl⟩

theorem stabilizeOne_idem (f : Frame) (hc : hasContent f) (cw chh : Nat)
    (hw : (findContentBounds f).width ≤ cw) (hh : (findContentBounds f).height ≤ chh) :
    stabilizeOne cw chh (stabilizeOne cw chh f (findContentBounds f))
      (findContentBounds (stabilizeOne cw chh f (findContentBounds f))) =
      stabilizeOne cw chh f (findContentBounds f) := by
  obtain ⟨hub, _, _, _, _, hxw, hyh, hw0, hh0⟩ := findContentBounds_spec f hc
  rw [findContentBounds_stabilizeOne f hc cw chh hw hh]
  set b := findContentBounds f with hbdef
  set l := (cw - b.width) / 2 with hldef
  set t := chh - b.height with htdef
  refine Frame.ext rfl rfl ?_
  funext x y
  rw [stabilizeOne_px cw chh (stabilizeOne cw chh f b) ⟨l, t, b.width, b.height⟩ x y]
  dsimp only
  rw [stabilizeOne_px cw chh f b x y]
  have hll : (cw - b.width) / 2 = l := rfl
  by_cases h1 : l ≤ x ∧ x < l + b.width ∧ t ≤ y ∧ y < t + b.height
  · rw [if_pos (by rw [hll]; exact h1), if_pos (by rw [hll]; exact h1)]
    rw [stabilizeOne_px cw chh f b]
    have hcond : (cw - b.width) / 2 ≤ l + (x - (cw - b.width) / 2) ∧
        l + (x - (cw - b.width) / 2) < (cw - b.width) / 2 + b.width ∧
        chh - b.height ≤ t + (y - (chh - b.height)) ∧
        t + (y - (chh - b.height)) < chh - b.height + b.height := by
      rw [hll]
      omega
    rw [if_pos hcond]
    have e1 : b.x + (l + (x - (cw - b.width) / 2) - (cw - b.width) / 2) =
        b.x + (x - (cw - b.width) / 2) := by
      rw [hll]
      omega
    have e2 : b.y + (t + (y - (chh - b.height)) - (chh - b.height)) =
        b.y + (y - (chh - b.height)) := by
      omega
    rw [e1, e2]
  · rw [if_neg (by rw [hll]; exact h1), if_neg (by rw [hll]; exact h1)]

/-- C8 counterexample: stabilizing a fully transparent 1-by-1 frame twice is
not pixel-identical to stabilizing it once — the content-bounds fallback
returns the whole frame, so each pass grows the canvas by 40 pixels. -/
theorem stabilize_idempotence_counterexample :
    stabilizeFrames (stabilizeFrames [transp1]) ≠ stabilizeFrames [transp1] := by
  intro h
  exact absurd (congrArg (List.map Frame.width) h) (by decide)

/-- C8 (amended): on sequences in which every frame has at least one pixel
with alpha above the content threshold 20, stabilization is idempotent — a
second application returns pixel-identical frames. -/
theorem stabilize_idempotent_on_content_frames (fs : List Frame)
    (hc : ∀ f ∈ fs, hasContent f) :
    stabilizeFrames (stabilizeFrames fs) = stabilizeFrames fs := by
  obtain ⟨hmw, hmh⟩ := maxContent_stabilize fs hc
  rw [stabilizeFrames_eq_map (stabilizeFrames fs), hmw, hmh]
  rw [stabilizeFrames_eq_map fs, List.map_map]
  apply List.map_congr_left
  intro f hf
  have hw := le_trans (width_le_maxContentWidthOf hf) (Nat.le_add_right _ 40)
  have hh := le_trans (height_le_maxContentHeightOf hf) (Nat.le_add_right _ 40)
  have := stabilizeOne_idem f (hc f hf) (maxContentWidthOf fs + 40)
    (maxContentHeightOf fs + 40) hw hh
  simpa [Function.comp] using this

/-- Witness for the amended C8 at a concrete one-frame sequence. -/
theorem stabilize_idempotent_on_content_frames_witness :
    (∀ f ∈ [opaq1], hasContent f) ∧
    stabilizeFrames (stabilizeFrames [opaq1]) = stabilizeFrames [opaq1] :=
  ⟨by intro f hf; simp at hf; subst hf; exact ⟨(0, 0), by decide⟩,
   stabilize_idempotent_on_content_frames [opaq1]
     (by intro f hf; simp at hf; subst hf; exact ⟨(0, 0), by decide⟩)⟩

/-- C2 counterexample: the stabilized canvas is `maxContentWidth + 40`, not
`maxContentWidth + 20` — the claimed 20px margin is wrong (it is 20px per
side, 40px per axis). -/
theorem stabilize_margin_counterexample :
    maxContentWidthOf [opaq1] = 1 ∧ maxContentHeightOf [opaq1] = 1 ∧
    (stabilizeFrames [opaq1]).map Frame.width = [41] ∧
    (stabilizeFrames [opaq1]).map Frame.height = [41] ∧
    (41 : Nat) ≠ 1 + 20 := by
  refine ⟨by decide, by decide, by decide, by decide, by decide⟩

/-- C2 (amended): stabilization gives every output frame the same dimensions
`(maxContentWidth + 40, maxContentHeight + 40)` (margins of 20px per side),
where the content bounds use alpha threshold 20; each frame with content is
composited horizontally centered (`left = floor((canvasW - w) / 2)`) with its
content bottom edge touching the canvas bottom exactly. -/
theorem stabilize_uniform_bottom_center (fs : List Frame) :
    (stabilizeFrames fs = fs.map (fun f =>
      stabilizeOne (maxContentWidthOf fs + 40) (maxContentHeightOf fs + 40) f
        (findContentBounds f))) ∧
    (∀ g ∈ stabilizeFrames fs,
      g.width = maxContentWidthOf fs + 40 ∧ g.height = maxContentHeightOf fs + 40) ∧
    (∀ f ∈ fs, hasContent f →
      findContentBounds
        (stabilizeOne (maxContentWidthOf fs + 40) (maxContentHeightOf fs + 40) f
          (findContentBounds f)) =
        ⟨(maxContentWidthOf fs + 40 - (findContentBounds f).width) / 2,
         maxContentHeightOf fs + 40 - (findContentBounds f).height,
         (findContentBounds f).width, (findContentBounds f).height⟩ ∧
      (maxContentHeightOf fs + 40 - (findContentBounds f).height) +
        (findContentBounds f).height = maxContentHeightOf fs + 40) := by
  refine ⟨stabilizeFrames_eq_map fs, ?_, ?_⟩
  · intro g hg
    rw [stabilizeFrames_eq_map fs] at hg
    obtain ⟨f, _, rfl⟩ := List.mem_map.mp hg
    exact ⟨rfl, rfl⟩
  · intro f hf hcf
    have hw := le_trans (width_le_maxContentWidthOf hf) (Nat.le_add_right _ 40)
    have hh := le_trans (height_le_maxContentHeightOf hf) (Nat.le_add_right _ 40)
    refine ⟨findContentBounds_stabilizeOne f hcf _ _ hw hh, by omega⟩

/-- Witness for the amended C2 at a concrete one-frame sequence. -/
theorem stabilize_uniform_bottom_center_witness :
    (∀ g ∈ stabilizeFrames [opaq1], g.width = maxContentWidthOf [opaq1] + 40 ∧
      g.height = maxContentHeightOf [opaq1] + 40) ∧
    findContentBounds
      (stabilizeOne (maxContentWidthOf [opaq1] + 40) (maxContentHeightOf [opaq1] + 40)
        opaq1 (findContentBounds opaq1)) =
      ⟨(maxContentWidthOf [opaq1] + 40 - (findContentBounds opaq1).width) / 2,
       maxContentHeightOf [opaq1] + 40 - (findContentBounds opaq1).height,
       (findContentBounds opaq1).width, (findContentBounds opaq1).height⟩ :=
  ⟨(stabilize_uniform_bottom_center [opaq1]).2.1,
   ((stabilize_uniform_bottom_center [opaq1]).2.2 opaq1 (by simp)
     ⟨(0, 0), by decide⟩).1⟩

theorem find?_append_eq {α : Type} (p : α → Bool) :
    ∀ (l₁ l₂ : List α), (l₁ ++ l₂).find? p =
      (match l₁.find? p with
       | some x => some x
       | none => l₂.find? p)
  | [], _ => rfl
  | a :: l₁, l₂ => by
    by_cases h : p a <;> simp [List.find?_cons, h, find?_append_eq p l₁ l₂]

theorem mapGet_nil (i : Nat) : mapGet [] i = [] := rfl

theorem mapGet_cons (e : Nat × List Anomaly) (m : AMap) (i : Nat) :
    mapGet (e :: m) i = if e.1 = i then e.2 else mapGet m i := by
  by_cases h : e.1 = i <;> simp [mapGet, List.find?_cons, h]

theorem mapGet_of_map_upd_self (i : Nat) (v : List Anomaly) :
    ∀ (m : AMap), m.any (fun e => e.1 == i) = true →
      mapGet (m.map (fun e => if e.1 == i then (i, v) else e)) i = v
  | e :: m, hany => by
    rw [List.map_cons, mapGet_cons]
    by_cases h : e.1 = i
    · have h1 : (if (e.1 == i) = true then (i, v) else e) = (i, v) := by simp [h]
      rw [h1]
      simp
    · have h1 : (if (e.1 == i) = true then (i, v) else e) = e := by simp [h]
      rw [h1, if_neg h]
      apply mapGet_of_map_upd_self i v m
      simp only [List.any_cons] at hany
      rcases Bool.or_eq_true_iff.mp hany with h' | h'
      · exact absurd (by simpa using h') h
      · exact h'

theorem mapGet_of_map_upd_ne (i j : Nat) (v : List Anomaly) (hji : j ≠ i) :
    ∀ (m : AMap),
      mapGet (m.map (fun e => if e.1 == i then (i, v) else e)) j = mapGet m j
  | [] => rfl
  | e :: m => by
    rw [List.map_cons, mapGet_cons, mapGet_cons]
    by_cases h : e.1 = i
    · have h1 : (if (e.1 == i) = true then (i, v) else e) = (i, v) := by simp [h]
      rw [h1, if_neg (show ¬((i, v).1 = j) from fun hc => hji hc.symm),
        if_neg (show ¬(e.1 = j) from fun hc => hji (h.symm.trans hc).symm)]
      exact mapGet_of_map_upd_ne i j v hji m
    · have h1 : (if (e.1 == i) = true then (i, v) else e) = e := by simp [h]
      rw [h1]
      by_cases hej : e.1 = j
      · rw [if_pos hej, if_pos hej]
      · rw [if_neg hej, if_neg hej]
        exact mapGet_of_map_upd_ne i j v hji m

theorem mapGet_mapSet_self (m : AMap) (i : Nat) (v : List Anomaly) :
    mapGet (mapSet m i v) i = v := by
  unfold mapSet
  by_cases hany : m.any (fun e => e.1 == i) = true
  · rw [if_pos hany]
    exact mapGet_of_map_upd_self i v m hany
  · rw [if_neg hany]
    have hnone : m.find? (fun e => e.1 == i) = none := by
      rw [List.find?_eq_none]
      intro e he
      intro hbe
      exact hany (List.any_eq_true.mpr ⟨e, he, hbe⟩)
    simp [mapGet, find?_append_eq, hnone, List.find?_cons]

theorem mapGet_mapSet_ne (m : AMap) (i j : Nat) (v : List Anomaly) (hji : j ≠ i) :
    mapGet (mapSet m i v) j = mapGet m j := by
  unfold mapSet
  by_cases hany : m.any (fun e => e.1 == i) = true
  · rw [if_pos hany]
    exact mapGet_of_map_upd_ne i j v hji m
  · rw [if_neg hany]
    simp only [mapGet, find?_append_eq]
    have : (((i, v) :: []).find? (fun e => e.1 == j)) = none := by
      simp only [List.find?_cons]
      have : (((i, v).1 == j)) = false := by
        simp only [beq_eq_false_iff_ne]
        exact fun hc => hji hc.symm
      rw [this]
      rfl
    cases hfind : m.find? (fun e => e.1 == j) <;> simp [hfind, this]

theorem mapGet_applyAdd_self (m : AMap) (i : Nat) (adds : List Anomaly) :
    mapGet (applyAdd m i adds) i = mapGet m i ++ adds := by
  unfold applyAdd
  by_cases h : adds.isEmpty
  · rw [if_pos h]
    have : adds = [] := List.isEmpty_iff.mp h
    simp [this]
  · rw [if_neg h]
    exact mapGet_mapSet_self m i _

theorem mapGet_applyAdd_ne (m : AMap) (i j : Nat) (adds : List Anomaly) (hji : j ≠ i) :
    mapGet (applyAdd m i adds) j = mapGet m j := by
  unfold applyAdd
  by_cases h : adds.isEmpty
  · rw [if_pos h]
  · rw [if_neg h]
    exact mapGet_mapSet_ne m i j _ hji

theorem keysOf_mapSet_of_any (m : AMap) (i : Nat) (v : List Anomaly)
    (hany : m.any (fun e => e.1 == i) = true) :
    keysOf (mapSet m i v) = keysOf m := by
  unfold mapSet keysOf
  rw [if_pos hany, List.map_map]
  apply List.map_congr_left
  intro e _
  by_cases h : e.1 = i
  · simp [Function.comp, h]
  · simp [Function.comp, h]

theorem keysOf_mapSet_of_not_any (m : AMap) (i : Nat) (v : List Anomaly)
    (hany : ¬ m.any (fun e => e.1 == i) = true) :
    keysOf (mapSet m i v) = keysOf m ++ [i] := by
  unfold mapSet keysOf
  rw [if_neg hany, List.map_append]
  rfl

theorem mem_keysOf_applyAdd {m : AMap} {i j : Nat} {adds : List Anomaly}
    (h : j ∈ keysOf (applyAdd m i adds)) : j ∈ keysOf m ∨ j = i := by
  unfold applyAdd at h
  split at h
  · exact Or.inl h
  · by_cases hany : m.any (fun e => e.1 == i) = true
    · rw [keysOf_mapSet_of_any m i _ hany] at h
      exact Or.inl h
    · rw [keysOf_mapSet_of_not_any m i _ hany] at h
      rcases List.mem_append.mp h with h | h
      · exact Or.inl h
      · exact Or.inr (by simpa using h)

theorem nodup_keysOf_applyAdd {m : AMap} (i : Nat) (adds : List Anomaly)
    (h : (keysOf m).Nodup) : (keysOf (applyAdd m i adds)).Nodup := by
  unfold applyAdd
  split
  · exact h
  · by_cases hany : m.any (fun e => e.1 == i) = true
    · rw [keysOf_mapSet_of_any m i _ hany]
      exact h
    · rw [keysOf_mapSet_of_not_any m i _ hany]
      have hni : i ∉ keysOf m := by
        intro hmem
        apply hany
        rw [List.any_eq_true]
        rcases List.mem_map.mp hmem with ⟨e, he, hei⟩
        exact ⟨e, he, by simpa using hei⟩
      simp [List.nodup_append, h, hni]

theorem entries_applyAdd_ne_nil {m : AMap} {i : Nat} {adds : List Anomaly}
    (h : ∀ e ∈ m, e.2 ≠ []) : ∀ e ∈ applyAdd m i adds, e.2 ≠ [] := by
  intro e he
  unfold applyAdd at he
  split at he
  · exact h e he
  · rename_i hne
    unfold mapSet at he
    split at he
    · rcases List.mem_map.mp he with ⟨e', he', hupd⟩
      by_cases hc : e'.1 = i
      · have : e = (i, mapGet m i ++ adds) := by
          rw [← hupd]
          simp [hc]
        rw [this]
        intro hcontra
        have : adds = [] := by
          rcases List.append_eq_nil.mp hcontra with ⟨_, h2⟩
          exact h2
        exact hne (by simp [this])
      · have : e = e' := by
          rw [← hupd]
          simp [hc]
        rw [this]
        exact h e' he'
    · rcases List.mem_append.mp he with he | he
      · exact h e he
      · have : e = (i, mapGet m i ++ adds) := by simpa using he
        rw [this]
        intro hcontra
        have : adds = [] := by
          rcases List.append_eq_nil.mp hcontra with ⟨_, h2⟩
          exact h2
        exact hne (by simp [this])

theorem mapGet_eq_of_mem : ∀ (m : AMap), (keysOf m).Nodup →
    ∀ e ∈ m, mapGet m e.1 = e.2
  | [], _, e, he => absurd he (List.not_mem_nil e)
  | e0 :: m, hnd, e, he => by
    rw [mapGet_cons]
    rcases List.mem_cons.mp he with h | h
    · rw [if_pos (by rw [h])]
      rw [h]
    · have hnd2 : (e0.1 :: keysOf m).Nodup := hnd
      have hcons := List.nodup_cons.mp hnd2
      have hne : e0.1 ≠ e.1 := by
        intro hc
        exact hcons.1 (hc ▸ List.mem_map_of_mem _ h)
      rw [if_neg hne]
      exact mapGet_eq_of_mem m hcons.2 e h

theorem mem_of_mapGet_ne_nil {m : AMap} {i : Nat} (h : mapGet m i ≠ []) :
    (i, mapGet m i) ∈ m := by
  unfold mapGet at *
  cases hfind : m.find? (fun e => e.1 == i) with
  | none => rw [hfind] at h; exact absurd rfl h
  | some e =>
    show (i, e.2) ∈ m
    have hmem := List.mem_of_find?_eq_some hfind
    have hkey : e.1 = i := by
      have := List.find?_some hfind
      simpa using this
    have heq : (i, e.2) = e := by
      rw [← hkey]
    rw [heq]
    exact hmem

theorem mapGet_runPass_not_mem {α : Type} (idx : α → Nat)
    (F : α → List Anomaly → List Anomaly) :
    ∀ (jobs : List α) (m0 : AMap) (i : Nat), i ∉ jobs.map idx →
      mapGet (runPass idx F m0 jobs) i = mapGet m0 i
  | [], _, _, _ => rfl
  | j :: jobs, m0, i, h => by
    rw [List.map_cons] at h
    have hji : i ≠ idx j := fun hc => h (hc ▸ List.mem_cons_self _ _)
    have htail : i ∉ jobs.map idx := fun hc => h (List.mem_cons_of_mem _ hc)
    show mapGet (runPass idx F (applyAdd m0 (idx j) (F j (mapGet m0 (idx j)))) jobs) i =
      mapGet m0 i
    rw [mapGet_runPass_not_mem idx F jobs _ i htail]
    exact mapGet_applyAdd_ne _ _ _ _ hji

theorem mapGet_runPass {α : Type} (idx : α → Nat) (F : α → List Anomaly → List Anomaly) :
    ∀ (jobs : List α) (m0 : AMap) (i : Nat), (jobs.map idx).Nodup →
      mapGet (runPass idx F m0 jobs) i =
        mapGet m0 i ++
          (match jobs.find? (fun j => idx j == i) with
           | some j => F j (mapGet m0 i)
           | none => [])
  | [], m0, i, _ => by simp [runPass]
  | j :: jobs, m0, i, hnd => by
    rw [List.map_cons] at hnd
    have hcons := List.nodup_cons.mp hnd
    show mapGet (runPass idx F (applyAdd m0 (idx j) (F j (mapGet m0 (idx j)))) jobs) i = _
    by_cases hij : idx j = i
    · subst hij
      have hf : (j :: jobs).find? (fun j' => idx j' == idx j) = some j := by
        simp [List.find?_cons]
      rw [hf]
      rw [mapGet_runPass_not_mem idx F jobs _ (idx j) hcons.1]
      rw [mapGet_applyAdd_self m0 (idx j) (F j (mapGet m0 (idx j)))]
    · have hf : (j :: jobs).find? (fun j' => idx j' == i) =
          jobs.find? (fun j' => idx j' == i) := by
        have hb : (idx j == i) = false := by simpa using hij
        simp [List.find?_cons, hb]
      rw [hf]
      rw [mapGet_runPass idx F jobs _ i hcons.2]
      cases hfind : jobs.find? (fun j' => idx j' == i) with
      | none => simp [mapGet_applyAdd_ne _ _ _ _ (fun hc => hij hc.symm)]
      | some j' => simp [mapGet_applyAdd_ne _ _ _ _ (fun hc => hij hc.symm)]

theorem nodup_keysOf_runPass {α : Type} (idx : α → Nat)
    (F : α → List Anomaly → List Anomaly) :
    ∀ (jobs : List α) (m0 : AMap), (keysOf m0).Nodup →
      (keysOf (runPass idx F m0 jobs)).Nodup
  | [], _, h => h
  | j :: jobs, m0, h =>
    nodup_keysOf_runPass idx F jobs _ (nodup_keysOf_applyAdd _ _ h)

theorem entries_runPass_ne_nil {α : Type} (idx : α → Nat)
    (F : α → List Anomaly → List Anomaly) :
    ∀ (jobs : List α) (m0 : AMap), (∀ e ∈ m0, e.2 ≠ []) →
      ∀ e ∈ runPass idx F m0 jobs, e.2 ≠ []
  | [], _, h => h
  | j :: jobs, m0, h =>
    entries_runPass_ne_nil idx F jobs _ (entries_applyAdd_ne_nil h)

theorem mem_keysOf_runPass {α : Type} (idx : α → Nat)
    (F : α → List Anomaly → List Anomaly) :
    ∀ (jobs : List α) (m0 : AMap) (i : Nat), i ∈ keysOf (runPass idx F m0 jobs) →
      i ∈ keysOf m0 ∨ i ∈ jobs.map idx
  | [], _, _, h => Or.inl h
  | j :: jobs, m0, i, h => by
    rcases mem_keysOf_runPass idx F jobs _ i h with h' | h'
    · rcases mem_keysOf_applyAdd h' with h'' | h''
      · exact Or.inl h''
      · exact Or.inr (by rw [List.map_cons, h'']; exact List.mem_cons_self _ _)
    · exact Or.inr (by rw [List.map_cons]; exact List.mem_cons_of_mem _ h')

theorem frameAnalyses_map_index (fs : List Frame) :
    (frameAnalyses fs).map Analysis.index = List.range fs.length := by
  unfold frameAnalyses
  rw [List.map_map]
  have hcomp : (Analysis.index ∘ analysisAt fs) = id := by
    funext j
    rfl
  rw [hcomp, List.map_id]

theorem find?_range_beq : ∀ (n i : Nat),
    (List.range n).find? (fun j => j == i) = if i < n then some i else none
  | 0, i => by simp
  | n + 1, i => by
    rw [List.range_succ, find?_append_eq, find?_range_beq n i]
    by_cases h : i < n
    · rw [if_pos h, if_pos (by omega)]
    · rw [if_neg h]
      by_cases h2 : i = n
      · subst h2
        simp
      · have hb : (n == i) = false := by simpa using fun hc => h2 hc.symm
        simp only [List.find?_cons, hb, List.find?_nil]
        rw [if_neg (by omega)]

theorem frameAnalyses_find? (fs : List Frame) (i : Nat) :
    (frameAnalyses fs).find? (fun a => a.index == i) =
      if i < fs.length then some (analysisAt fs i) else none := by
  unfold frameAnalyses
  rw [List.find?_map]
  have hcomp : ((fun (a : Analysis) => a.index == i) ∘ analysisAt fs) =
      (fun j => j == i) := by
    funext j
    rfl
  rw [hcomp, find?_range_beq]
  by_cases h : i < fs.length <;> simp [h]

theorem find?_range'_beq : ∀ (n s i : Nat),
    (List.range' s n).find? (fun j => j == i) =
      if s ≤ i ∧ i < s + n then some i else none
  | 0, s, i => by
    rw [if_neg (by omega)]
    rfl
  | n + 1, s, i => by
    show (s :: List.range' (s + 1) n).find? (fun j => j == i) = _
    by_cases h : s = i
    · subst h
      simp only [List.find?_cons, beq_self_eq_true]
      rw [if_pos (by omega)]
    · have hb : (s == i) = false := by simpa using h
      simp only [List.find?_cons, hb]
      rw [find?_range'_beq n (s + 1) i]
      by_cases h2 : s + 1 ≤ i ∧ i < s + 1 + n
      · rw [if_pos h2, if_pos (by omega)]
      · rw [if_neg h2, if_neg (by omega)]

theorem mapGet_anomalyMapM1 (opts : Options) (fs : List Frame) (i : Nat)
    (hi : i < fs.length) :
    mapGet (anomalyMapM1 opts fs) i =
      method1AnomaliesFor opts (statsOf fs) (analysisAt fs i) := by
  unfold anomalyMapM1
  rw [mapGet_runPass Analysis.index _ (frameAnalyses fs) [] i
    (by rw [frameAnalyses_map_index]; exact List.nodup_range _)]
  rw [show ((frameAnalyses fs).find? fun j => j.index == i) =
      if i < fs.length then some (analysisAt fs i) else none from frameAnalyses_find? fs i]
  rw [if_pos hi]
  simp [mapGet_nil]

theorem mapGet_anomalyMapM2 (opts : Options) (fs : List Frame) (i : Nat)
    (hi : i < fs.length) :
    mapGet (anomalyMapM2 opts fs) i =
      method1AnomaliesFor opts (statsOf fs) (analysisAt fs i) ++
      method2AddsFor opts (statsOf fs) (frameAnalyses fs) (analysisAt fs i) := by
  unfold anomalyMapM2
  rw [mapGet_runPass Analysis.index _ (frameAnalyses fs) _ i
    (by rw [frameAnalyses_map_index]; exact List.nodup_range _)]
  rw [show ((frameAnalyses fs).find? fun j => j.index == i) =
      if i < fs.length then some (analysisAt fs i) else none from frameAnalyses_find? fs i]
  rw [if_pos hi, mapGet_anomalyMapM1 opts fs i hi]

theorem mapGet_anomalyMapM3 (codec : Codec) (opts : Options) (fs : List Frame) (i : Nat)
    (hi : i < fs.length) :
    mapGet (anomalyMapM3 codec opts fs) i =
      mapGet (anomalyMapM2 opts fs) i ++
      (if 1 ≤ i ∧ i < 1 + (fs.length - 2) then
        method3AddsFor opts (adjacentSSIMScores codec fs) i else []) := by
  unfold anomalyMapM3
  rw [mapGet_runPass id _ (List.range' 1 (fs.length - 2)) _ i
    (by rw [List.map_id]; exact List.nodup_range' _ _ 1 Nat.one_pos)]
  have hfind : ((List.range' 1 (fs.length - 2)).find? fun j => id j == i) =
      if 1 ≤ i ∧ i < 1 + (fs.length - 2) then some i else none := by
    simpa [id_eq] using find?_range'_beq (fs.length - 2) 1 i
  rw [hfind]
  by_cases h : 1 ≤ i ∧ i < 1 + (fs.length - 2)
  · rw [if_pos h, if_pos h]
  · rw [if_neg h, if_neg h]

theorem mapGet_anomalyMapM4 (codec : Codec) (opts : Options) (fs : List Frame) (i : Nat)
    (hi : i < fs.length) :
    mapGet (anomalyMapM4 codec opts fs) i =
      mapGet (anomalyMapM3 codec opts fs) i ++
      (if 1 ≤ i ∧ i < 1 + (fs.length - 2) then
        method4AddsFor opts (consecutiveDiffRatios codec fs)
          (mapGet (anomalyMapM3 codec opts fs) i) i else []) := by
  unfold anomalyMapM4
  rw [mapGet_runPass id _ (List.range' 1 (fs.length - 2)) _ i
    (by rw [List.map_id]; exact List.nodup_range' _ _ 1 Nat.one_pos)]
  have hfind : ((List.range' 1 (fs.length - 2)).find? fun j => id j == i) =
      if 1 ≤ i ∧ i < 1 + (fs.length - 2) then some i else none := by
    simpa [id_eq] using find?_range'_beq (fs.length - 2) 1 i
  rw [hfind]
  by_cases h : 1 ≤ i ∧ i < 1 + (fs.length - 2)
  · rw [if_pos h, if_pos h]
  · rw [if_neg h, if_neg h]

theorem mapGet_detectAnomalyMap (codec : Codec) (opts : Options) (fs : List Frame)
    (i : Nat) (h3 : 3 ≤ fs.length) (hi : i < fs.length) :
    mapGet (detectAnomalyMap codec opts fs) i =
      method1AnomaliesFor opts (statsOf fs) (analysisAt fs i) ++
      method2AddsFor opts (statsOf fs) (frameAnalyses fs) (analysisAt fs i) ++
      (if 1 ≤ i ∧ i < fs.length - 1 then
        method3AddsFor opts (adjacentSSIMScores codec fs) i else []) ++
      (if 1 ≤ i ∧ i < fs.length - 1 then
        method4AddsFor opts (consecutiveDiffRatios codec fs)
          (mapGet (anomalyMapM3 codec opts fs) i) i else []) := by
  have hcond : (1 ≤ i ∧ i < 1 + (fs.length - 2)) ↔ (1 ≤ i ∧ i < fs.length - 1) := by
    omega
  unfold detectAnomalyMap
  rw [if_neg (by omega)]
  rw [mapGet_anomalyMapM4 codec opts fs i hi, mapGet_anomalyMapM3 codec opts fs i hi,
    mapGet_anomalyMapM2 opts fs i hi]
  by_cases h : 1 ≤ i ∧ i < fs.length - 1
  · rw [if_pos (hcond.mpr h), if_pos (hcond.mpr h), if_pos h, if_pos h,
      List.append_assoc, List.append_assoc]
  · rw [if_neg (fun hc => h (hcond.mp hc)), if_neg (fun hc => h (hcond.mp hc)),
      if_neg h, if_neg h]

theorem nodup_keysOf_detectAnomalyMap (codec : Codec) (opts : Options) (fs : List Frame) :
    (keysOf (detectAnomalyMap codec opts fs)).Nodup := by
  unfold detectAnomalyMap
  split
  · exact List.nodup_nil
  · exact nodup_keysOf_runPass _ _ _ _ (nodup_keysOf_runPass _ _ _ _
      (nodup_keysOf_runPass _ _ _ _ (nodup_keysOf_runPass _ _ _ _ List.nodup_nil)))

theorem entries_detectAnomalyMap_ne_nil (codec : Codec) (opts : Options)
    (fs : List Frame) : ∀ e ∈ detectAnomalyMap codec opts fs, e.2 ≠ [] := by
  unfold detectAnomalyMap
  split
  · intro e he
    exact absurd he (List.not_mem_nil e)
  · exact entries_runPass_ne_nil _ _ _ _ (entries_runPass_ne_nil _ _ _ _
      (entries_runPass_ne_nil _ _ _ _ (entries_runPass_ne_nil _ _ _ _
        (fun e he => absurd he (List.not_mem_nil e)))))

theorem mem_keysOf_detectAnomalyMap_lt (codec : Codec) (opts : Options)
    (fs : List Frame) (i : Nat) (h : i ∈ keysOf (detectAnomalyMap codec opts fs)) :
    i < fs.length := by
  unfold detectAnomalyMap at h
  split at h
  · exact absurd h (List.not_mem_nil i)
  · rename_i hlen
    have hrange : ∀ j, j ∈ (List.range' 1 (fs.length - 2)).map id → j < fs.length := by
      intro j hj
      rw [List.map_id] at hj
      have := List.mem_range'_1.mp hj
      omega
    have hanalyses : ∀ j, j ∈ (frameAnalyses fs).map Analysis.index → j < fs.length := by
      intro j hj
      rw [frameAnalyses_map_index] at hj
      exact List.mem_range.mp hj
    rcases mem_keysOf_runPass _ _ _ _ _ h with h | h
    · rcases mem_keysOf_runPass _ _ _ _ _ h with h | h
      · rcases mem_keysOf_runPass _ _ _ _ _ h with h | h
        · rcases mem_keysOf_runPass _ _ _ _ _ h with h | h
          · exact absurd h (List.not_mem_nil i)
          · exact hanalyses i h
        · exact hanalyses i h
      · exact hrange i h
    · exact hrange i h

theorem detectBadFrames_eq (codec : Codec) (opts : Options) (fs : List Frame)
    (h3 : ¬ fs.length < 3) :
    detectBadFrames codec opts fs =
      ⟨List.insertionSort (fun a b => a.index ≤ b.index)
        ((detectAnomalyMap codec opts fs).map
          (mkBadRecord (keysOf (detectAnomalyMap codec opts fs)) fs.length)),
       detectionMethodNames⟩ := by
  simp [detectBadFrames, h3]

theorem exists_badRecord_iff (codec : Codec) (opts : Options) (fs : List Frame)
    (h3 : ¬ fs.length < 3) (i : Nat) (P : BadFrameRecord → Prop) :
    (∃ b ∈ (detectBadFrames codec opts fs).badFrames, b.index = i ∧ P b) ↔
      (mapGet (detectAnomalyMap codec opts fs) i ≠ [] ∧
        P (mkBadRecord (keysOf (detectAnomalyMap codec opts fs)) fs.length
            (i, mapGet (detectAnomalyMap codec opts fs) i))) := by
  rw [detectBadFrames_eq codec opts fs h3]
  constructor
  · rintro ⟨b, hb, hidx, hP⟩
    have hb' : b ∈ (detectAnomalyMap codec opts fs).map
        (mkBadRecord (keysOf (detectAnomalyMap codec opts fs)) fs.length) :=
      (List.perm_insertionSort _ _).mem_iff.mp hb
    obtain ⟨e, he, hbe⟩ := List.mem_map.mp hb'
    have he1 : e.1 = i := by
      rw [← hidx, ← hbe]
      rfl
    have hval : mapGet (detectAnomalyMap codec opts fs) e.1 = e.2 :=
      mapGet_eq_of_mem _ (nodup_keysOf_detectAnomalyMap codec opts fs) e he
    have hval' : mapGet (detectAnomalyMap codec opts fs) i = e.2 := he1 ▸ hval
    constructor
    · rw [hval']
      exact entries_detectAnomalyMap_ne_nil codec opts fs e he
    · have hie : (i, mapGet (detectAnomalyMap codec opts fs) i) = e := by
        rw [hval', ← he1]
      rw [hie, hbe]
      exact hP
  · rintro ⟨hne, hP⟩
    have hmem : (i, mapGet (detectAnomalyMap codec opts fs) i) ∈
        detectAnomalyMap codec opts fs := mem_of_mapGet_ne_nil hne
    refine ⟨mkBadRecord (keysOf (detectAnomalyMap codec opts fs)) fs.length
      (i, mapGet (detectAnomalyMap codec opts fs) i), ?_, rfl, hP⟩
    exact (List.perm_insertionSort _ _).mem_iff.mpr (List.mem_map_of_mem _ hmem)

theorem sortQ_sorted (l : List ℚ) : (sortQ l).Sorted (fun a b => a ≤ b) :=
  List.sorted_insertionSort _ l

theorem sortQ_getD_mono (l : List ℚ) {i j : Nat} (hij : i ≤ j)
    (hj : j < (sortQ l).length) : (sortQ l).getD i 0 ≤ (sortQ l).getD j 0 := by
  rcases Nat.eq_or_lt_of_le hij with h | h
  · rw [h]
  · have hi : i < (sortQ l).length := lt_trans h hj
    rw [List.getD_eq_getElem (sortQ l) 0 hi, List.getD_eq_getElem (sortQ l) 0 hj]
    exact List.pairwise_iff_get.mp (sortQ_sorted l) ⟨i, hi⟩ ⟨j, hj⟩ h

theorem q1_le_median_le_q3 (l : List ℚ) (hl : l ≠ []) :
    q1Of l ≤ getMedianQ l ∧ getMedianQ l ≤ q3Of l ∧ q1Of l ≤ q3Of l := by
  have hlen : (sortQ l).length = l.length := length_sortQ l
  have hpos : 0 < l.length := List.length_pos.mpr hl
  have h2 : (sortQ l).length / 2 < (sortQ l).length := by omega
  have h34 : 3 * (sortQ l).length / 4 < (sortQ l).length := by omega
  have h14 : (sortQ l).length / 4 ≤ (sortQ l).length / 2 := by omega
  have h24 : (sortQ l).length / 2 ≤ 3 * (sortQ l).length / 4 := by omega
  have h1434 : (sortQ l).length / 4 ≤ 3 * (sortQ l).length / 4 := by omega
  exact ⟨sortQ_getD_mono l h14 h2, sortQ_getD_mono l h24 h34, sortQ_getD_mono l h1434 h34⟩

theorem mem_colorCheckFor_iff (opts : Options) (st : Stats) (fa : Analysis)
    (ch : Channel) (a : Anomaly) :
    a ∈ colorCheckFor opts st fa ch ↔
      50 < st.channelMedian ch ∧
      (fa.colors.channel ch : ℚ) / st.channelMedian ch < opts.colorRatioThreshold ∧
      a = Anomaly.color_loss ch (fa.colors.channel ch) (st.channelMedian ch)
          ((fa.colors.channel ch : ℚ) / st.channelMedian ch)
          (if (fa.colors.channel ch : ℚ) / st.channelMedian ch < 2/10 then .severe
           else .moderate) := by
  simp only [colorCheckFor]
  by_cases h1 : 50 < st.channelMedian ch
  · rw [if_pos h1]
    by_cases h2 : (fa.colors.channel ch : ℚ) / st.channelMedian ch < opts.colorRatioThreshold
    · rw [if_pos h2]
      simp [h1, h2]
    · rw [if_neg h2]
      simp [h1, h2]
  · rw [if_neg h1]
    simp [h1]

theorem kind_of_mem_greenWashoutFor {opts : Options} {st : Stats} {fa : Analysis}
    {existing : List Anomaly} {a : Anomaly} (ha : a ∈ greenWashoutFor opts st fa existing) :
    a.kind = AnomalyKind.green_washout := by
  simp only [greenWashoutFor] at ha
  split at ha
  · split at ha
    · split at ha
      · exact absurd ha (List.not_mem_nil a)
      · rw [List.mem_singleton] at ha
        subst ha
        rfl
    · exact absurd ha (List.not_mem_nil a)
  · exact absurd ha (List.not_mem_nil a)

theorem kind_of_mem_method1 {opts : Options} {st : Stats} {fa : Analysis} {a : Anomaly}
    (ha : a ∈ method1AnomaliesFor opts st fa) :
    a.kind = AnomalyKind.color_loss ∨ a.kind = AnomalyKind.green_washout := by
  simp only [method1AnomaliesFor, List.mem_append] at ha
  rcases ha with ((ha | ha) | ha) | ha
  · left
    rw [((mem_colorCheckFor_iff opts st fa _ a).mp ha).2.2]
    rfl
  · left
    rw [((mem_colorCheckFor_iff opts st fa _ a).mp ha).2.2]
    rfl
  · left
    rw [((mem_colorCheckFor_iff opts st fa _ a).mp ha).2.2]
    rfl
  · exact Or.inr (kind_of_mem_greenWashoutFor ha)

theorem mem_opacityAnomFor_iff (opts : Options) (st : Stats) (analyses : List Analysis)
    (fa : Analysis) (a : Anomaly) :
    a ∈ opacityAnomFor opts st analyses fa ↔
      ((fa.alpha.opaqueRatio < (opacityBoundsOf opts analyses).1 ∨
        (opacityBoundsOf opts analyses).2.1 < fa.alpha.opaqueRatio) ∧
       a = (if fa.alpha.opaqueRatio < st.opaqueRatio then
              Anomaly.transparency_hole fa.alpha.opaqueRatio st.opaqueRatio
                (opacityBoundsOf opts analyses).1 (opacityBoundsOf opts analyses).2.1
                (if fa.alpha.opaqueRatio <
                    (opacityBoundsOf opts analyses).1 - (opacityBoundsOf opts analyses).2.2
                 then Severity.severe else Severity.moderate)
            else
              Anomaly.extra_opacity fa.alpha.opaqueRatio st.opaqueRatio
                (opacityBoundsOf opts analyses).1 (opacityBoundsOf opts analyses).2.1
                (if fa.alpha.opaqueRatio <
                    (opacityBoundsOf opts analyses).1 - (opacityBoundsOf opts analyses).2.2
                 then Severity.severe else Severity.moderate))) := by
  simp only [opacityAnomFor]
  by_cases h : fa.alpha.opaqueRatio < (opacityBoundsOf opts analyses).1 ∨
      (opacityBoundsOf opts analyses).2.1 < fa.alpha.opaqueRatio
  · rw [if_pos h]
    simp [h]
  · rw [if_neg h]
    simp [h]

theorem kind_of_mem_haloAnomFor {analyses : List Analysis} {fa : Analysis} {a : Anomaly}
    (ha : a ∈ haloAnomFor analyses fa) : a.kind = AnomalyKind.halo_effect := by
  simp only [haloAnomFor] at ha
  split at ha
  · rw [List.mem_singleton] at ha
    subst ha
    rfl
  · exact absurd ha (List.not_mem_nil a)

theorem kind_of_mem_method2 {opts : Options} {st : Stats} {analyses : List Analysis}
    {fa : Analysis} {a : Anomaly} (ha : a ∈ method2AddsFor opts st analyses fa) :
    a.kind = AnomalyKind.transparency_hole ∨ a.kind = AnomalyKind.extra_opacity ∨
      a.kind = AnomalyKind.halo_effect := by
  simp only [method2AddsFor, List.mem_append] at ha
  rcases ha with ha | ha
  · have := ((mem_opacityAnomFor_iff opts st analyses fa a).mp ha).2
    rw [this]
    split
    · left
      rfl
    · right
      left
      rfl
  · exact Or.inr (Or.inr (kind_of_mem_haloAnomFor ha))

theorem method3AddsFor_eq (opts : Options) (scores : List ℚ) (i : Nat) :
    method3AddsFor opts scores i =
      if (scores.getD (i - 1) 0 < ssimOutlierThresholdFrom scores ∧
          scores.getD i 0 < ssimOutlierThresholdFrom scores) ∧
          min (scores.getD (i - 1) 0) (scores.getD i 0) < opts.ssimThreshold then
        [Anomaly.structural_damage (scores.getD (i - 1) 0) (scores.getD i 0)
          (ssimOutlierThresholdFrom scores)
          (if min (scores.getD (i - 1) 0) (scores.getD i 0) < 4/10 then Severity.severe
           else Severity.moderate)]
      else [] := rfl

theorem kind_of_mem_method4 {opts : Options} {diffs : List ℚ} {cur : List Anomaly}
    {i : Nat} {a : Anomaly} (ha : a ∈ method4AddsFor opts diffs cur i) :
    a.kind = AnomalyKind.pixel_outlier := by
  simp only [method4AddsFor] at ha
  split at ha
  · split at ha
    · exact absurd ha (List.not_mem_nil a)
    · rw [List.mem_singleton] at ha
      subst ha
      rfl
  · exact absurd ha (List.not_mem_nil a)

/-- C4: an interior frame is flagged `structural_damage` iff both adjacent
SSIM scores fall below the strict outlier floor `Q1 - 3.0*IQR` and their
minimum is below the absolute `ssimThreshold`; a frame with exactly one
adjacent score below the outlier floor is never flagged. -/
theorem structural_damage_double_confirmation (codec : Codec) (opts : Options)
    (fs : List Frame) (i : Nat) (h3 : 3 ≤ fs.length) (h0 : 0 < i)
    (hN : i < fs.length - 1) :
    ((∃ b ∈ (detectBadFrames codec opts fs).badFrames, b.index = i ∧
        ∃ a ∈ b.reasons, a.kind = AnomalyKind.structural_damage) ↔
      ((adjacentSSIMScores codec fs).getD (i - 1) 0 < ssimOutlierThresholdOf codec fs ∧
       (adjacentSSIMScores codec fs).getD i 0 < ssimOutlierThresholdOf codec fs ∧
       min ((adjacentSSIMScores codec fs).getD (i - 1) 0)
         ((adjacentSSIMScores codec fs).getD i 0) < opts.ssimThreshold)) ∧
    (((adjacentSSIMScores codec fs).getD (i - 1) 0 < ssimOutlierThresholdOf codec fs ↔
      ¬ (adjacentSSIMScores codec fs).getD i 0 < ssimOutlierThresholdOf codec fs) →
      ¬ ∃ b ∈ (detectBadFrames codec opts fs).badFrames, b.index = i ∧
        ∃ a ∈ b.reasons, a.kind = AnomalyKind.structural_damage) := by
  have hmain : (∃ b ∈ (detectBadFrames codec opts fs).badFrames, b.index = i ∧
      ∃ a ∈ b.reasons, a.kind = AnomalyKind.structural_damage) ↔
      ((adjacentSSIMScores codec fs).getD (i - 1) 0 < ssimOutlierThresholdOf codec fs ∧
       (adjacentSSIMScores codec fs).getD i 0 < ssimOutlierThresholdOf codec fs ∧
       min ((adjacentSSIMScores codec fs).getD (i - 1) 0)
         ((adjacentSSIMScores codec fs).getD i 0) < opts.ssimThreshold) := by
    rw [exists_badRecord_iff codec opts fs (by omega) i
      (fun b => ∃ a ∈ b.reasons, a.kind = AnomalyKind.structural_damage)]
    have hmg := mapGet_detectAnomalyMap codec opts fs i h3 (by omega)
    rw [hmg]
    show (_ ≠ [] ∧ ∃ a ∈ _ ++ _ ++ _ ++ _, _) ↔ _
    rw [if_pos (show 1 ≤ i ∧ i < fs.length - 1 by omega),
      if_pos (show 1 ≤ i ∧ i < fs.length - 1 by omega)]
    constructor
    · rintro ⟨hne, a, ha, hk⟩
      simp only [List.mem_append] at ha
      rcases ha with ((ha | ha) | ha) | ha
      · rcases kind_of_mem_method1 ha with h | h <;> rw [hk] at h <;> exact absurd h (by simp)
      · rcases kind_of_mem_method2 ha with h | h | h <;> rw [hk] at h <;>
          exact absurd h (by simp)
      · rw [method3AddsFor_eq] at ha
        split at ha
        · rename_i hcond
          exact ⟨hcond.1.1, hcond.1.2, hcond.2⟩
        · exact absurd ha (List.not_mem_nil a)
      · have h := kind_of_mem_method4 ha
        rw [hk] at h
        exact absurd h (by simp)
    · intro hcond
      have hcond' : ((adjacentSSIMScores codec fs).getD (i - 1) 0 <
            ssimOutlierThresholdFrom (adjacentSSIMScores codec fs) ∧
          (adjacentSSIMScores codec fs).getD i 0 <
            ssimOutlierThresholdFrom (adjacentSSIMScores codec fs)) ∧
          min ((adjacentSSIMScores codec fs).getD (i - 1) 0)
            ((adjacentSSIMScores codec fs).getD i 0) < opts.ssimThreshold :=
        ⟨⟨hcond.1, hcond.2.1⟩, hcond.2.2⟩
      constructor
      · intro hnil
        rcases List.append_eq_nil.mp hnil with ⟨hnil', _⟩
        rcases List.append_eq_nil.mp hnil' with ⟨_, hnil3⟩
        rw [method3AddsFor_eq, if_pos hcond'] at hnil3
        exact absurd hnil3 (by simp)
      · refine ⟨Anomaly.structural_damage ((adjacentSSIMScores codec fs).getD (i - 1) 0)
          ((adjacentSSIMScores codec fs).getD i 0)
          (ssimOutlierThresholdFrom (adjacentSSIMScores codec fs))
          (if min ((adjacentSSIMScores codec fs).getD (i - 1) 0)
              ((adjacentSSIMScores codec fs).getD i 0) < 4/10 then Severity.severe
           else Severity.moderate), ?_, rfl⟩
        refine List.mem_append.mpr (Or.inl (List.mem_append.mpr (Or.inr ?_)))
        rw [method3AddsFor_eq, if_pos hcond']
        exact List.mem_singleton.mpr rfl
  refine ⟨hmain, ?_⟩
  intro hxor hflag
  have hc := hmain.mp hflag
  rcases hc with ⟨h1, h2, _⟩
  exact (hxor.mp h1) h2

/-- Witness for C4 at a concrete three-frame sequence and interior index 1. -/
theorem structural_damage_double_confirmation_witness :
    3 ≤ allBadFrames.length ∧ 0 < 1 ∧ 1 < allBadFrames.length - 1 ∧
    ((∃ b ∈ (detectBadFrames trivCodec defaultOptions allBadFrames).badFrames,
        b.index = 1 ∧ ∃ a ∈ b.reasons, a.kind = AnomalyKind.structural_damage) ↔
      ((adjacentSSIMScores trivCodec allBadFrames).getD 0 0 <
          ssimOutlierThresholdOf trivCodec allBadFrames ∧
       (adjacentSSIMScores trivCodec allBadFrames).getD 1 0 <
          ssimOutlierThresholdOf trivCodec allBadFrames ∧
       min ((adjacentSSIMScores trivCodec allBadFrames).getD 0 0)
         ((adjacentSSIMScores trivCodec allBadFrames).getD 1 0) <
          defaultOptions.ssimThreshold)) :=
  ⟨by decide, by decide, by decide,
   (structural_damage_double_confirmation trivCodec defaultOptions allBadFrames 1
     (by decide) (by decide) (by decide)).1⟩

theorem badRecord_props (codec : Codec) (opts : Options) (fs : List Frame)
    (h3 : ¬ fs.length < 3) (b : BadFrameRecord)
    (hb : b ∈ (detectBadFrames codec opts fs).badFrames) :
    b.reasons = mapGet (detectAnomalyMap codec opts fs) b.index ∧
    b.replacement = resolveReplacement (keysOf (detectAnomalyMap codec opts fs))
      fs.length b.index ∧
    b.index ∈ keysOf (detectAnomalyMap codec opts fs) := by
  rw [detectBadFrames_eq codec opts fs h3] at hb
  have hb' : b ∈ (detectAnomalyMap codec opts fs).map
      (mkBadRecord (keysOf (detectAnomalyMap codec opts fs)) fs.length) :=
    (List.perm_insertionSort _ _).mem_iff.mp hb
  obtain ⟨e, he, hbe⟩ := List.mem_map.mp hb'
  have hidx : b.index = e.1 := by rw [← hbe]; rfl
  have hval : mapGet (detectAnomalyMap codec opts fs) e.1 = e.2 :=
    mapGet_eq_of_mem _ (nodup_keysOf_detectAnomalyMap codec opts fs) e he
  refine ⟨?_, ?_, ?_⟩
  · rw [hidx, hval, ← hbe]
    rfl
  · rw [hidx, ← hbe]
    rfl
  · rw [hidx]
    exact List.mem_map_of_mem _ he

theorem opacityBounds_ordering (opts : Options) (fs : List Frame) (h3 : 3 ≤ fs.length)
    (hknn : 0 ≤ opts.opacityIQRMultiplier) :
    (opacityBoundsOf opts (frameAnalyses fs)).1 ≤ (statsOf fs).opaqueRatio ∧
    (statsOf fs).opaqueRatio ≤ (opacityBoundsOf opts (frameAnalyses fs)).2.1 ∧
    0 ≤ (opacityBoundsOf opts (frameAnalyses fs)).2.2 := by
  have hne : (frameAnalyses fs).map (fun f => f.alpha.opaqueRatio) ≠ [] := by
    have hlen : ((frameAnalyses fs).map (fun f => f.alpha.opaqueRatio)).length =
        fs.length := by
      simp [frameAnalyses]
    intro hnil
    rw [hnil] at hlen
    simp at hlen
    omega
  obtain ⟨hq1m, hmq3, hq13⟩ :=
    q1_le_median_le_q3 ((frameAnalyses fs).map (fun f => f.alpha.opaqueRatio)) hne
  have hmed : (statsOf fs).opaqueRatio =
      getMedianQ ((frameAnalyses fs).map (fun f => f.alpha.opaqueRatio)) := rfl
  have hmul : 0 ≤ opts.opacityIQRMultiplier *
      (q3Of ((frameAnalyses fs).map (fun f => f.alpha.opaqueRatio)) -
       q1Of ((frameAnalyses fs).map (fun f => f.alpha.opaqueRatio))) :=
    mul_nonneg hknn (by linarith)
  simp only [opacityBoundsOf]
  refine ⟨?_, ?_, ?_⟩
  · rw [hmed]
    linarith
  · rw [hmed]
    linarith
  · linarith

/-- C5 counterexample: on opaque ratios `[0.1, 0.1, 0.1, 0.2, 0.9]` frame 4
lies above the upper bound by more than one extra IQR, yet its
`extra_opacity` anomaly is `moderate` — the code's severity test compares
against the lower bound only, so the claimed symmetric severity rule fails. -/
theorem extra_opacity_severity_counterexample :
    ((detectBadFrames trivCodec defaultOptions opacityFrames).badFrames.map
      (fun b => (b.index, b.reasons.map (fun a => (a.kind, a.severity))))) =
      [(4, [(AnomalyKind.extra_opacity, Severity.moderate)])] ∧
    (opacityBoundsOf defaultOptions (frameAnalyses opacityFrames)).2.1 +
      (opacityBoundsOf defaultOptions (frameAnalyses opacityFrames)).2.2 <
      (analysisAt opacityFrames 4).alpha.opaqueRatio := by
  constructor
  · decide
  · decide

/-- C5 (amended): with `[lower, upper] = [Q1 - k*IQR, Q3 + k*IQR]` over all
frames' opaque ratios, a frame is flagged `transparency_hole` exactly when its
ratio is below `lower` and `extra_opacity` exactly when it is above `upper`;
the severity of either anomaly is `severe` exactly when the ratio is below
`lower - IQR` (so `extra_opacity` anomalies are always `moderate`). -/
theorem opacity_outlier_flagging (codec : Codec) (opts : Options) (fs : List Frame)
    (i : Nat) (h3 : 3 ≤ fs.length) (hi : i < fs.length)
    (hknn : 0 ≤ opts.opacityIQRMultiplier) :
    ((∃ b ∈ (detectBadFrames codec opts fs).badFrames, b.index = i ∧
        ∃ a ∈ b.reasons, a.kind = AnomalyKind.transparency_hole) ↔
      (analysisAt fs i).alpha.opaqueRatio < (opacityBoundsOf opts (frameAnalyses fs)).1) ∧
    ((∃ b ∈ (detectBadFrames codec opts fs).badFrames, b.index = i ∧
        ∃ a ∈ b.reasons, a.kind = AnomalyKind.extra_opacity) ↔
      (opacityBoundsOf opts (frameAnalyses fs)).2.1 < (analysisAt fs i).alpha.opaqueRatio) ∧
    (∀ b ∈ (detectBadFrames codec opts fs).badFrames, b.index = i →
      ∀ a ∈ b.reasons,
        (a.kind = AnomalyKind.transparency_hole ∨ a.kind = AnomalyKind.extra_opacity) →
        (a.severity = Severity.severe ↔
          (analysisAt fs i).alpha.opaqueRatio <
            (opacityBoundsOf opts (frameAnalyses fs)).1 -
            (opacityBoundsOf opts (frameAnalyses fs)).2.2)) := by
  obtain ⟨hlm, hmu, hiqr⟩ := opacityBounds_ordering opts fs h3 hknn
  have hmg := mapGet_detectAnomalyMap codec opts fs i h3 hi
  have hsplit : ∀ a ∈ mapGet (detectAnomalyMap codec opts fs) i,
      (a.kind = AnomalyKind.transparency_hole ∨ a.kind = AnomalyKind.extra_opacity) →
      a ∈ opacityAnomFor opts (statsOf fs) (frameAnalyses fs) (analysisAt fs i) := by
    intro a ha hk2
    rw [hmg] at ha
    simp only [List.mem_append] at ha
    rcases ha with ((ha | ha) | ha) | ha
    · exfalso
      rcases kind_of_mem_method1 ha with h | h <;> rcases hk2 with h2 | h2 <;>
        rw [h2] at h <;> exact absurd h (by simp)
    · simp only [method2AddsFor, List.mem_append] at ha
      rcases ha with ha | ha
      · exact ha
      · exfalso
        have h := kind_of_mem_haloAnomFor ha
        rcases hk2 with h2 | h2 <;> rw [h2] at h <;> exact absurd h (by simp)
    · exfalso
      split at ha
      · rw [method3AddsFor_eq] at ha
        split at ha
        · rw [List.mem_singleton] at ha
          subst ha
          rcases hk2 with h2 | h2 <;> exact absurd h2 (by simp [Anomaly.kind])
        · exact absurd ha (List.not_mem_nil a)
      · exact absurd ha (List.not_mem_nil a)
    · exfalso
      split at ha
      · have h := kind_of_mem_method4 ha
        rcases hk2 with h2 | h2 <;> rw [h2] at h <;> exact absurd h (by simp)
      · exact absurd ha (List.not_mem_nil a)
  have hsub : ∀ a ∈ opacityAnomFor opts (statsOf fs) (frameAnalyses fs) (analysisAt fs i),
      a ∈ mapGet (detectAnomalyMap codec opts fs) i := by
    intro a ha
    rw [hmg]
    refine List.mem_append.mpr (Or.inl (List.mem_append.mpr (Or.inl
      (List.mem_append.mpr (Or.inr ?_)))))
    simp only [method2AddsFor, List.mem_append]
    exact Or.inl ha
  refine ⟨?_, ?_, ?_⟩
  · rw [exists_badRecord_iff codec opts fs (by omega) i
      (fun b => ∃ a ∈ b.reasons, a.kind = AnomalyKind.transparency_hole)]
    constructor
    · rintro ⟨hne, a, ha, hk2⟩
      have hop := hsplit a ha (Or.inl hk2)
      rw [mem_opacityAnomFor_iff] at hop
      obtain ⟨houtside, haeq⟩ := hop
      by_cases hmed : (analysisAt fs i).alpha.opaqueRatio < (statsOf fs).opaqueRatio
      · rcases houtside with h | h
        · exact h
        · exfalso
          linarith
      · exfalso
        rw [if_neg hmed] at haeq
        rw [haeq] at hk2
        exact absurd hk2 (by simp [Anomaly.kind])
    · intro hlt
      have hmed : (analysisAt fs i).alpha.opaqueRatio < (statsOf fs).opaqueRatio :=
        lt_of_lt_of_le hlt hlm
      have hmem := (mem_opacityAnomFor_iff opts (statsOf fs) (frameAnalyses fs)
        (analysisAt fs i) _).mpr ⟨Or.inl hlt, by rw [if_pos hmed]⟩
      refine ⟨List.ne_nil_of_mem (hsub _ hmem), _, hsub _ hmem, rfl⟩
  · rw [exists_badRecord_iff codec opts fs (by omega) i
      (fun b => ∃ a ∈ b.reasons, a.kind = AnomalyKind.extra_opacity)]
    constructor
    · rintro ⟨hne, a, ha, hk2⟩
      have hop := hsplit a ha (Or.inr hk2)
      rw [mem_opacityAnomFor_iff] at hop
      obtain ⟨houtside, haeq⟩ := hop
      by_cases hmed : (analysisAt fs i).alpha.opaqueRatio < (statsOf fs).opaqueRatio
      · exfalso
        rw [if_pos hmed] at haeq
        rw [haeq] at hk2
        exact absurd hk2 (by simp [Anomaly.kind])
      · rcases houtside with h | h
        · exfalso
          linarith
        · exact h
    · intro hgt
      have hmed : ¬ (analysisAt fs i).alpha.opaqueRatio < (statsOf fs).opaqueRatio := by
        linarith
      have hmem := (mem_opacityAnomFor_iff opts (statsOf fs) (frameAnalyses fs)
        (analysisAt fs i) _).mpr ⟨Or.inr hgt, by rw [if_neg hmed]⟩
      refine ⟨List.ne_nil_of_mem (hsub _ hmem), _, hsub _ hmem, rfl⟩
  · intro b hb hidx a ha hk2
    obtain ⟨hreasons, _, _⟩ := badRecord_props codec opts fs (by omega) b hb
    rw [hreasons, hidx] at ha
    have hop := hsplit a ha hk2
    rw [mem_opacityAnomFor_iff] at hop
    obtain ⟨_, haeq⟩ := hop
    rw [haeq]
    split <;>
    · by_cases hs : (analysisAt fs i).alpha.opaqueRatio <
          (opacityBoundsOf opts (frameAnalyses fs)).1 -
          (opacityBoundsOf opts (frameAnalyses fs)).2.2
      · rw [if_pos hs]
        simp [Anomaly.severity, hs]
      · rw [if_neg hs]
        simp [Anomaly.severity, hs]

/-- Witness for the amended C5 at a concrete five-frame sequence. -/
theorem opacity_outlier_flagging_witness :
    (∃ b ∈ (detectBadFrames trivCodec defaultOptions opacityFrames).badFrames,
      b.index = 4 ∧ ∃ a ∈ b.reasons, a.kind = AnomalyKind.extra_opacity) ∧
    ¬ (∃ b ∈ (detectBadFrames trivCodec defaultOptions opacityFrames).badFrames,
      b.index = 4 ∧ ∃ a ∈ b.reasons, a.kind = AnomalyKind.transparency_hole) :=
  ⟨((opacity_outlier_flagging trivCodec defaultOptions opacityFrames 4 (by decide)
      (by decide) (by decide)).2.1).mpr (by decide),
   fun hflag => absurd ((opacity_outlier_flagging trivCodec defaultOptions opacityFrames 4
      (by decide) (by decide) (by decide)).1.mp hflag) (by decide)⟩

theorem isColorLossOn_mem_method1 {opts : Options} {st : Stats} {fa : Analysis}
    {ch : Channel} {a : Anomaly} (ha : a ∈ method1AnomaliesFor opts st fa)
    (hloss : a.isColorLossOn ch = true) : a ∈ colorCheckFor opts st fa ch := by
  simp only [method1AnomaliesFor, List.mem_append] at ha
  have hcc : ∀ ch', a ∈ colorCheckFor opts st fa ch' → a ∈ colorCheckFor opts st fa ch := by
    intro ch' ha'
    have h := (mem_colorCheckFor_iff opts st fa ch' a).mp ha'
    have hch : ch' = ch := by
      rw [h.2.2] at hloss
      simpa [Anomaly.isColorLossOn] using hloss
    rw [← hch]
    exact ha'
  rcases ha with ((ha | ha) | ha) | ha
  · exact hcc _ ha
  · exact hcc _ ha
  · exact hcc _ ha
  · exfalso
    have h := kind_of_mem_greenWashoutFor ha
    cases a <;> simp [Anomaly.isColorLossOn] at hloss <;> simp [Anomaly.kind] at h

theorem colorCheck_mem_method1 {opts : Options} {st : Stats} {fa : Analysis}
    {ch : Channel} {a : Anomaly} (ha : a ∈ colorCheckFor opts st fa ch) :
    a ∈ method1AnomaliesFor opts st fa := by
  simp only [method1AnomaliesFor, List.mem_append]
  cases ch
  · exact Or.inl (Or.inl (Or.inl ha))
  · exact Or.inl (Or.inl (Or.inr ha))
  · exact Or.inl (Or.inr ha)

theorem color_loss_flagging_core (codec : Codec) (opts : Options) (fs : List Frame)
    (i : Nat) (ch : Channel) (h3 : 3 ≤ fs.length) (hi : i < fs.length) :
    ((∃ b ∈ (detectBadFrames codec opts fs).badFrames, b.index = i ∧
        ∃ a ∈ b.reasons, a.isColorLossOn ch = true) ↔
      (50 < (statsOf fs).channelMedian ch ∧
       ((analysisAt fs i).colors.channel ch : ℚ) / (statsOf fs).channelMedian ch <
         opts.colorRatioThreshold)) ∧
    (∀ b ∈ (detectBadFrames codec opts fs).badFrames, b.index = i →
      ∀ a ∈ b.reasons, a.isColorLossOn ch = true →
      (a.severity = Severity.severe ↔
        ((analysisAt fs i).colors.channel ch : ℚ) / (statsOf fs).channelMedian ch <
          2/10)) := by
  have hmg := mapGet_detectAnomalyMap codec opts fs i h3 hi
  have hsplit : ∀ a ∈ mapGet (detectAnomalyMap codec opts fs) i,
      a.isColorLossOn ch = true →
      a ∈ colorCheckFor opts (statsOf fs) (analysisAt fs i) ch := by
    intro a ha hloss
    rw [hmg] at ha
    simp only [List.mem_append] at ha
    have hklemma : a.kind = AnomalyKind.color_loss := by
      cases a <;> simp [Anomaly.isColorLossOn] at hloss <;> rfl
    rcases ha with ((ha | ha) | ha) | ha
    · exact isColorLossOn_mem_method1 ha hloss
    · exfalso
      rcases kind_of_mem_method2 ha with h | h | h <;> rw [hklemma] at h <;>
        exact absurd h (by simp)
    · exfalso
      split at ha
      · rw [method3AddsFor_eq] at ha
        split at ha
        · rw [List.mem_singleton] at ha
          subst ha
          exact absurd hklemma (by simp [Anomaly.kind])
        · exact absurd ha (List.not_mem_nil a)
      · exact absurd ha (List.not_mem_nil a)
    · exfalso
      split at ha
      · have h := kind_of_mem_method4 ha
        rw [hklemma] at h
        exact absurd h (by simp)
      · exact absurd ha (List.not_mem_nil a)
  have hsub : ∀ a ∈ colorCheckFor opts (statsOf fs) (analysisAt fs i) ch,
      a ∈ mapGet (detectAnomalyMap codec opts fs) i := by
    intro a ha
    rw [hmg]
    exact List.mem_append.mpr (Or.inl (List.mem_append.mpr (Or.inl
      (List.mem_append.mpr (Or.inl (colorCheck_mem_method1 ha))))))
  constructor
  · rw [exists_badRecord_iff codec opts fs (by omega) i
      (fun b => ∃ a ∈ b.reasons, a.isColorLossOn ch = true)]
    constructor
    · rintro ⟨hne, a, ha, hloss⟩
      have h := (mem_colorCheckFor_iff opts (statsOf fs) (analysisAt fs i) ch a).mp
        (hsplit a ha hloss)
      exact ⟨h.1, h.2.1⟩
    · rintro ⟨h50, hratio⟩
      have hmem := (mem_colorCheckFor_iff opts (statsOf fs) (analysisAt fs i) ch _).mpr
        ⟨h50, hratio, rfl⟩
      refine ⟨List.ne_nil_of_mem (hsub _ hmem), _, hsub _ hmem, ?_⟩
      simp [Anomaly.isColorLossOn]
  · intro b hb hidx a ha hloss
    obtain ⟨hreasons, _, _⟩ := badRecord_props codec opts fs (by omega) b hb
    rw [hreasons, hidx] at ha
    have h := (mem_colorCheckFor_iff opts (statsOf fs) (analysisAt fs i) ch a).mp
      (hsplit a ha hloss)
    rw [h.2.2]
    by_cases hs : ((analysisAt fs i).colors.channel ch : ℚ) /
        (statsOf fs).channelMedian ch < 2/10
    · rw [if_pos hs]
      simp [Anomaly.severity, hs]
    · rw [if_neg hs]
      simp [Anomaly.severity, hs]

theorem sorted_replicate_le (n : Nat) (c : ℚ) :
    (List.replicate n c).Sorted (fun a b => a ≤ b) := by
  induction n with
  | zero => simp
  | succ n ih =>
    rw [List.replicate_succ, List.sorted_cons]
    exact ⟨fun b hb => le_of_eq (List.eq_of_mem_replicate hb).symm, ih⟩

theorem getMedianQ_one_low (N k : Nat) (c d : ℚ) (hN : 3 ≤ N) (hk : k < N)
    (hdc : d ≤ c) :
    getMedianQ ((List.range N).map (fun j => if j = k then d else c)) = c := by
  have hperm : List.Perm ((List.range N).map (fun j => if j = k then d else c))
      (d :: List.replicate (N - 1) c) := by
    have h1 : List.Perm (List.range N) (k :: (List.range N).erase k) :=
      List.perm_cons_erase (List.mem_range.mpr hk)
    have h2 := h1.map (fun j => if j = k then d else c)
    rw [List.map_cons, if_pos rfl] at h2
    have h3 : ((List.range N).erase k).map (fun j => if j = k then d else c) =
        List.replicate (N - 1) c := by
      rw [List.eq_replicate]
      constructor
      · rw [List.length_map, List.length_erase_of_mem (List.mem_range.mpr hk),
          List.length_range]
      · intro b hb
        obtain ⟨j, hj, hjb⟩ := List.mem_map.mp hb
        have hjk : j ≠ k := ((List.Nodup.mem_erase_iff (List.nodup_range N)).mp hj).1
        rw [← hjb, if_neg hjk]
    rw [h3] at h2
    exact h2
  have hsorted2 : (d :: List.replicate (N - 1) c).Sorted (fun a b => a ≤ b) := by
    rw [List.sorted_cons]
    exact ⟨fun b hb => le_trans hdc (le_of_eq (List.eq_of_mem_replicate hb).symm),
      sorted_replicate_le _ _⟩
  have heq : sortQ ((List.range N).map (fun j => if j = k then d else c)) =
      d :: List.replicate (N - 1) c :=
    List.eq_of_perm_of_sorted ((List.perm_insertionSort _ _).trans hperm)
      (sortQ_sorted _) hsorted2
  unfold getMedianQ
  rw [heq]
  show (d :: List.replicate (N - 1) c).getD
    ((d :: List.replicate (N - 1) c).length / 2) 0 = c
  have hlen : (d :: List.replicate (N - 1) c).length = N := by
    simp
    omega
  rw [hlen]
  obtain ⟨m, hm⟩ : ∃ m, N / 2 = m + 1 := ⟨N / 2 - 1, by omega⟩
  rw [hm]
  rw [List.getD_cons_succ]
  have hmlt : m < N - 1 := by omega
  rw [List.getD_eq_getElem _ _ (by simpa using hmlt)]
  exact List.getElem_replicate ..

/-- C6: For N ≥ 3 frames, a frame is flagged `color_loss` on a channel exactly
when the cross-frame median of that channel's count exceeds the presence floor
50 and the frame's count-to-median ratio is below `colorRatioThreshold`
(default 0.35); the reason's severity is `severe` exactly when the ratio is
below 0.2 (and `moderate` otherwise); and in the scenario where all frames are
identical except one whose dark-green count is 10 percent of the common value
(itself above 50), that frame's index appears in `badFrames` with a severe
`color_loss` reason. -/
theorem color_loss_flagging (codec : Codec) (opts : Options) (fs : List Frame)
    (i : Nat) (ch : Channel) (h3 : 3 ≤ fs.length) (hi : i < fs.length) :
    ((∃ b ∈ (detectBadFrames codec opts fs).badFrames, b.index = i ∧
        ∃ a ∈ b.reasons, a.isColorLossOn ch = true) ↔
      (50 < (statsOf fs).channelMedian ch ∧
       ((analysisAt fs i).colors.channel ch : ℚ) / (statsOf fs).channelMedian ch <
         opts.colorRatioThreshold)) ∧
    (∀ b ∈ (detectBadFrames codec opts fs).badFrames, b.index = i →
      ∀ a ∈ b.reasons, a.isColorLossOn ch = true →
      (a.severity = Severity.severe ↔
        ((analysisAt fs i).colors.channel ch : ℚ) /
          (statsOf fs).channelMedian ch < 2/10)) ∧
    (∀ (g : Frame) (k : Nat), k < fs.length →
      (∀ j, j < fs.length → j ≠ k → fs.getD j dFrame = g) →
      (analyzePixels (fs.getD k dFrame)).1.darkGreen * 10 =
        (analyzePixels g).1.darkGreen →
      50 < (analyzePixels g).1.darkGreen →
      ∃ b ∈ (detectBadFrames codec defaultOptions fs).badFrames, b.index = k ∧
        ∃ a ∈ b.reasons, a.isColorLossOn Channel.darkGreen = true ∧
          a.severity = Severity.severe) := by
  refine ⟨(color_loss_flagging_core codec opts fs i ch h3 hi).1,
    (color_loss_flagging_core codec opts fs i ch h3 hi).2, ?_⟩
  intro g k hk hconst hcount h50
  have hcore := color_loss_flagging_core codec defaultOptions fs k Channel.darkGreen
    h3 hk
  have hmap : (frameAnalyses fs).map (fun f => (f.colors.darkGreen : ℚ)) =
      (List.range fs.length).map (fun j =>
        if j = k then ((analyzePixels (fs.getD k dFrame)).1.darkGreen : ℚ)
        else ((analyzePixels g).1.darkGreen : ℚ)) := by
    unfold frameAnalyses
    rw [List.map_map]
    apply List.map_congr_left
    intro j hj
    by_cases hjk : j = k
    · subst hjk
      rw [if_pos rfl]
      rfl
    · rw [if_neg hjk]
      show ((analyzePixels (fs.getD j dFrame)).1.darkGreen : ℚ) = _
      rw [hconst j (List.mem_range.mp hj) hjk]
  have hdc : ((analyzePixels (fs.getD k dFrame)).1.darkGreen : ℚ) ≤
      ((analyzePixels g).1.darkGreen : ℚ) := by
    have h := hcount
    have : (analyzePixels (fs.getD k dFrame)).1.darkGreen ≤
        (analyzePixels g).1.darkGreen := by omega
    exact_mod_cast this
  have hmed : (statsOf fs).channelMedian Channel.darkGreen =
      ((analyzePixels g).1.darkGreen : ℚ) := by
    show getMedianQ ((frameAnalyses fs).map (fun f => (f.colors.darkGreen : ℚ))) = _
    rw [hmap]
    exact getMedianQ_one_low fs.length k _ _ h3 hk hdc
  have hd0 : ((analyzePixels (fs.getD k dFrame)).1.darkGreen : ℚ) ≠ 0 := by
    have hpos : (analyzePixels (fs.getD k dFrame)).1.darkGreen ≠ 0 := by omega
    exact_mod_cast hpos
  have hcq : ((analyzePixels g).1.darkGreen : ℚ) =
      ((analyzePixels (fs.getD k dFrame)).1.darkGreen : ℚ) * 10 := by
    exact_mod_cast hcount.symm
  have hr : ((analyzePixels (fs.getD k dFrame)).1.darkGreen : ℚ) /
      ((analyzePixels g).1.darkGreen : ℚ) = (10 : ℚ)⁻¹ := by
    rw [hcq]
    exact div_mul_cancel_left₀ hd0 10
  have hcond : 50 < (statsOf fs).channelMedian Channel.darkGreen ∧
      ((analysisAt fs k).colors.channel Channel.darkGreen : ℚ) /
        (statsOf fs).channelMedian Channel.darkGreen <
        defaultOptions.colorRatioThreshold := by
    constructor
    · rw [hmed]
      exact_mod_cast h50
    · rw [hmed]
      show ((analyzePixels (fs.getD k dFrame)).1.darkGreen : ℚ) /
          ((analyzePixels g).1.darkGreen : ℚ) < defaultOptions.colorRatioThreshold
      rw [hr]
      show (10 : ℚ)⁻¹ < 35/100
      norm_num
  obtain ⟨b, hb, hidx, a, ha, hloss⟩ := hcore.1.mpr hcond
  have hsevcond : ((analysisAt fs k).colors.channel Channel.darkGreen : ℚ) /
      (statsOf fs).channelMedian Channel.darkGreen < 2/10 := by
    rw [hmed]
    show ((analyzePixels (fs.getD k dFrame)).1.darkGreen : ℚ) /
        ((analyzePixels g).1.darkGreen : ℚ) < 2/10
    rw [hr]
    norm_num
  exact ⟨b, hb, hidx, a, ha, hloss, (hcore.2 b hb hidx a ha hloss).mpr hsevcond⟩

/-- Witness for the color-loss claim on the concrete sequence
`greenLossFrames`: the last frame has dark-green count 6, exactly 10 percent of
the common count 60, and is flagged with a severe `color_loss`. -/
theorem color_loss_flagging_witness :
    ∃ b ∈ (detectBadFrames trivCodec defaultOptions greenLossFrames).badFrames,
      b.index = 2 ∧ ∃ a ∈ b.reasons, a.isColorLossOn Channel.darkGreen = true ∧
        a.severity = Severity.severe := by
  refine (color_loss_flagging trivCodec defaultOptions greenLossFrames 2
    Channel.darkGreen (by decide) (by decide)).2.2 (greenRow 60) 2 (by decide)
    ?_ (by decide) (by decide)
  intro j hj hjk
  have hj3 : j < 3 := by simpa [greenLossFrames] using hj
  interval_cases j
  · rfl
  · rfl
  · exact absurd rfl hjk

theorem resolveOutward_ne (badIdx : List Nat) (N i : Nat) :
    ∀ (fuel dist fb : Nat), fb ≠ i → 0 < dist →
      resolveOutward badIdx N i fuel dist fb ≠ i := by
  intro fuel
  induction fuel with
  | zero =>
    intro dist fb hfb _
    exact hfb
  | succ fuel ih =>
    intro dist fb hfb hdist
    simp only [resolveOutward]
    split
    · exact hfb
    · split
      · rename_i hc
        obtain ⟨hcd, -⟩ := hc
        omega
      · split
        · rename_i hc
          omega
        · exact ih (dist + 1) fb hfb (by omega)

theorem resolveOutward_allbad (badIdx : List Nat) (N i : Nat) (hi : i < N)
    (hall : ∀ j, j < N → j ∈ badIdx) :
    ∀ (fuel dist fb : Nat), resolveOutward badIdx N i fuel dist fb = fb := by
  intro fuel
  induction fuel with
  | zero =>
    intro dist fb
    rfl
  | succ fuel ih =>
    intro dist fb
    simp only [resolveOutward]
    split
    · rfl
    · split
      · rename_i hc
        obtain ⟨hcd, hcb⟩ := hc
        exact absurd (hall (i - dist) (by omega)) hcb
      · split
        · rename_i hc
          obtain ⟨hcd, hcb⟩ := hc
          exact absurd (hall (i + dist) hcd) hcb
        · exact ih (dist + 1) fb

theorem resolveOutward_good (badIdx : List Nat) (N i : Nat) (hi : i < N) :
    ∀ (fuel dist fb : Nat), N ≤ dist + fuel →
      (∀ j, j < N → j ∉ badIdx → dist ≤ idxDist i j) →
      (∃ j, j < N ∧ j ∉ badIdx) →
      resolveOutward badIdx N i fuel dist fb < N ∧
      resolveOutward badIdx N i fuel dist fb ∉ badIdx ∧
      ∀ j, j < N → j ∉ badIdx →
        idxDist i (resolveOutward badIdx N i fuel dist fb) ≤ idxDist i j := by
  intro fuel
  induction fuel with
  | zero =>
    intro dist fb hcover hfar hex
    exfalso
    obtain ⟨j, hj, hjb⟩ := hex
    have h1 := hfar j hj hjb
    simp only [idxDist] at h1
    omega
  | succ fuel ih =>
    intro dist fb hcover hfar hex
    simp only [resolveOutward]
    split
    · rename_i hN
      exfalso
      obtain ⟨j, hj, hjb⟩ := hex
      have h1 := hfar j hj hjb
      simp only [idxDist] at h1
      omega
    · rename_i hN
      split
      · rename_i hc
        obtain ⟨hcd, hcb⟩ := hc
        refine ⟨by omega, hcb, ?_⟩
        intro j hj hjb
        have h1 := hfar j hj hjb
        have h2 : idxDist i (i - dist) = dist := by
          simp only [idxDist]
          omega
        rw [h2]
        exact h1
      · rename_i hc2
        split
        · rename_i hc
          obtain ⟨hcd, hcb⟩ := hc
          refine ⟨hcd, hcb, ?_⟩
          intro j hj hjb
          have h1 := hfar j hj hjb
          have h2 : idxDist i (i + dist) = dist := by
            simp only [idxDist]
            omega
          rw [h2]
          exact h1
        · rename_i hc3
          refine ih (dist + 1) fb (by omega) ?_ hex
          intro j hj hjb
          have h1 := hfar j hj hjb
          rcases Nat.lt_or_ge dist (idxDist i j) with h | h
          · omega
          · exfalso
            have heq : idxDist i j = dist := le_antisymm h h1
            simp only [idxDist] at heq
            rcases Nat.le_total j i with hji | hij
            · have hji2 : j = i - dist := by omega
              have hdi : dist ≤ i := by omega
              exact hc2 ⟨hdi, hji2 ▸ hjb⟩
            · have hij2 : j = i + dist := by omega
              exact hc3 ⟨by omega, hij2 ▸ hjb⟩

theorem resolveReplacement_spec (badIdx : List Nat) (N i : Nat) (h3 : 3 ≤ N)
    (hi : i < N) (hibad : i ∈ badIdx) :
    resolveReplacement badIdx N i ≠ i ∧
    (0 < i ∧ (i - 1) ∉ badIdx → resolveReplacement badIdx N i = i - 1) ∧
    (¬(0 < i ∧ (i - 1) ∉ badIdx) → i < N - 1 ∧ (i + 1) ∉ badIdx →
      resolveReplacement badIdx N i = i + 1) ∧
    (¬(0 < i ∧ (i - 1) ∉ badIdx) → ¬(i < N - 1 ∧ (i + 1) ∉ badIdx) →
      (∃ j, j < N ∧ j ∉ badIdx) →
      resolveReplacement badIdx N i ∉ badIdx ∧ resolveReplacement badIdx N i < N ∧
      ∀ j, j < N → j ∉ badIdx →
        idxDist i (resolveReplacement badIdx N i) ≤ idxDist i j) ∧
    ((∀ j, j < N → j ∈ badIdx) →
      resolveReplacement badIdx N i = (if 0 < i then i - 1 else i + 1) ∧
      resolveReplacement badIdx N i ∈ badIdx) := by
  have hz : resolveReplacement badIdx N i =
      (if 0 < i ∧ (i - 1) ∉ badIdx then i - 1
       else if i < N - 1 ∧ (i + 1) ∉ badIdx then i + 1
       else resolveOutward badIdx N i (N - 2) 2
         (if 0 < i then i - 1 else i + 1)) := by
    simp only [resolveReplacement]
  by_cases hc1 : 0 < i ∧ (i - 1) ∉ badIdx
  · obtain ⟨hc1a, hc1b⟩ := hc1
    rw [hz, if_pos ⟨hc1a, hc1b⟩]
    exact ⟨by omega, fun _ => rfl, fun h => absurd ⟨hc1a, hc1b⟩ h,
      fun h => absurd ⟨hc1a, hc1b⟩ h,
      fun hall => absurd (hall (i - 1) (by omega)) hc1b⟩
  · by_cases hc2 : i < N - 1 ∧ (i + 1) ∉ badIdx
    · obtain ⟨hc2a, hc2b⟩ := hc2
      rw [hz, if_neg hc1, if_pos ⟨hc2a, hc2b⟩]
      exact ⟨by omega, fun h => absurd h hc1, fun _ _ => rfl,
        fun _ h => absurd ⟨hc2a, hc2b⟩ h,
        fun hall => absurd (hall (i + 1) (by omega)) hc2b⟩
    · rw [hz, if_neg hc1, if_neg hc2]
      refine ⟨?_, fun h => absurd h hc1, fun _ h => absurd h hc2, ?_, ?_⟩
      · exact resolveOutward_ne badIdx N i (N - 2) 2 _
          (by split <;> omega) (by omega)
      · intro _ _ hex
        have hfar : ∀ j, j < N → j ∉ badIdx → 2 ≤ idxDist i j := by
          intro j hj hjb
          by_contra hlt
          push_neg at hlt
          simp only [idxDist] at hlt
          rcases Nat.lt_or_ge j i with hji | hij
          · have hji2 : j = i - 1 ∧ 0 < i := by omega
            exact hc1 ⟨hji2.2, hji2.1 ▸ hjb⟩
          · rcases Nat.eq_or_lt_of_le hij with heq | hlt2
            · exact hjb (heq ▸ hibad)
            · have hij2 : j = i + 1 ∧ i < N - 1 := by omega
              exact hc2 ⟨hij2.2, hij2.1 ▸ hjb⟩
        have h := resolveOutward_good badIdx N i hi (N - 2) 2
          (if 0 < i then i - 1 else i + 1) (by omega) hfar hex
        exact ⟨h.2.1, h.1, h.2.2⟩
      · intro hall
        constructor
        · exact resolveOutward_allbad badIdx N i hi hall (N - 2) 2 _
        · rw [resolveOutward_allbad badIdx N i hi hall (N - 2) 2 _]
          split
          · exact hall (i - 1) (by omega)
          · exact hall (i + 1) (by omega)

/-- C1 (amended): for N ≥ 3 frames, every flagged record's replacement is the
predecessor when it exists and is not bad; else the successor when it exists
and is not bad; else, when some good frame exists, a good in-range index at
minimal distance found by the outward search; the replacement never equals the
record's own index.  When every frame is bad, however, the record is not marked
`unresolved` (no such marker exists): the replacement silently stays at the
default neighbor, which is itself bad, and the frame is modified by the
replacement step. -/
theorem replacement_resolution (codec : Codec) (opts : Options) (fs : List Frame)
    (h3 : 3 ≤ fs.length) (b : BadFrameRecord)
    (hb : b ∈ (detectBadFrames codec opts fs).badFrames) :
    b.replacement ≠ b.index ∧
    (0 < b.index ∧ (b.index - 1) ∉ keysOf (detectAnomalyMap codec opts fs) →
      b.replacement = b.index - 1) ∧
    (¬(0 < b.index ∧ (b.index - 1) ∉ keysOf (detectAnomalyMap codec opts fs)) →
      b.index < fs.length - 1 ∧
        (b.index + 1) ∉ keysOf (detectAnomalyMap codec opts fs) →
      b.replacement = b.index + 1) ∧
    (¬(0 < b.index ∧ (b.index - 1) ∉ keysOf (detectAnomalyMap codec opts fs)) →
      ¬(b.index < fs.length - 1 ∧
        (b.index + 1) ∉ keysOf (detectAnomalyMap codec opts fs)) →
      (∃ j, j < fs.length ∧ j ∉ keysOf (detectAnomalyMap codec opts fs)) →
      b.replacement ∉ keysOf (detectAnomalyMap codec opts fs) ∧
      b.replacement < fs.length ∧
      ∀ j, j < fs.length → j ∉ keysOf (detectAnomalyMap codec opts fs) →
        idxDist b.index b.replacement ≤ idxDist b.index j) ∧
    ((∀ j, j < fs.length → j ∈ keysOf (detectAnomalyMap codec opts fs)) →
      b.replacement = (if 0 < b.index then b.index - 1 else b.index + 1) ∧
      b.replacement ∈ keysOf (detectAnomalyMap codec opts fs)) := by
  obtain ⟨-, hrepl, hkey⟩ := badRecord_props codec opts fs (by omega) b hb
  have hi : b.index < fs.length :=
    mem_keysOf_detectAnomalyMap_lt codec opts fs _ hkey
  have h := resolveReplacement_spec (keysOf (detectAnomalyMap codec opts fs))
    fs.length b.index h3 hi hkey
  rw [hrepl]
  exact h

/-- C1 counterexample: on `allBadFrames` every frame is flagged, yet no record
is marked unresolved — each record's replacement is the (bad) default
neighbor, every replacement index is itself in the bad set, and the
replacement step does modify an original frame (pixel (10,0) of frame 0
changes). -/
theorem replacement_unresolved_counterexample :
    ((detectBadFrames trivCodec defaultOptions allBadFrames).badFrames.map
      (fun b => (b.index, b.replacement)) = [(0, 1), (1, 0), (2, 1)]) ∧
    (∀ b ∈ (detectBadFrames trivCodec defaultOptions allBadFrames).badFrames,
      b.replacement ∈
        (detectBadFrames trivCodec defaultOptions allBadFrames).badFrames.map
          (fun r => r.index)) ∧
    ((replaceBadFrames allBadFrames
        (detectBadFrames trivCodec defaultOptions allBadFrames).badFrames).getD 0
          dFrame).px 10 0 ≠ ((allBadFrames.getD 0 dFrame).px 10 0) := by
  refine ⟨by decide, by decide, by decide⟩

/-- Witness for the amended replacement-resolution claim: in
`greenLossFrames` only index 2 is flagged, its predecessor 1 is good, and the
record's replacement is indeed 1. -/
theorem replacement_resolution_witness :
    ((detectBadFrames trivCodec defaultOptions greenLossFrames).badFrames.getD 0
        ⟨0, [], 0, Severity.moderate⟩).replacement =
      ((detectBadFrames trivCodec defaultOptions greenLossFrames).badFrames.getD 0
        ⟨0, [], 0, Severity.moderate⟩).index - 1 := by
  exact (replacement_resolution trivCodec defaultOptions greenLossFrames
    (by decide)
    ((detectBadFrames trivCodec defaultOptions greenLossFrames).badFrames.getD 0
      ⟨0, [], 0, Severity.moderate⟩)
    (by decide)).2.1 (by decide)
